import Mathlib

/-!
RemoteTrx supervisor shell: log sink, output capture, signal and stdin handling.

A shallow embedding of `src/svxlink/remotetrx/remotetrx.cpp`.

* Bytes are `Char`s; a `const char *` argument is the list of bytes found at the
  pointer, read up to (not including) the first NUL byte or the end of the list.
* The process state (the file-scope variables of the translation unit and the
  function-local `static bool print_timestamp`) is the record `State`, together
  with the part of the operating system the code talks to: the set of open log
  handles and the history of system calls (`trace`).
* Everything the program cannot decide itself (what `write`, `open`,
  `gettimeofday` and `strftime` return) is read from an environment `Env`.
-/

namespace RemoteTrx

/-! ## Data model -/

/-- The NUL byte terminating a C string. -/
def NUL : Char := Char.ofNat 0

/-- The line terminator searched for by `strchr(ptr, '\n')`. -/
def NL : Char := '\n'

/-- Call site of a `write(2)` on the log descriptor: the formatted time stamp
(`write(logfd, tstr, tlen)`), its separator (`write(logfd, ": ", 2)`), a run of
the caller's buffer (`write(logfd, ptr, write_len)`) or a marker line of
`logfile_reopen` (`write(logfd, msg.c_str(), msg.size())`). -/
inductive Site where
  | tstamp
  | sep
  | data
  | marker
  deriving DecidableEq, Repr

/-- Observable actions of the process, in program order. `write fd site req ret`
is a call `write(fd, req, req.length)` that returned `ret`. `openFile path res`
is `open(path, O_WRONLY | O_APPEND | O_CREAT, 00644)` returning handle `res`
(`none` for `-1`). -/
inductive Event where
  | write (fd : Option Nat) (site : Site) (req : List Char) (ret : Int)
  | close (h : Nat)
  | openFile (path : Option String) (res : Option Nat)
  | perror (s : String)
  | cout (bytes : List Char)
  | cerr (bytes : List Char)
  | quit
  | exec
  deriving DecidableEq, Repr

/-- What the outside world answers. `write t n` is the value returned by the
`write(2)` issued at time `t` for `n` bytes on an open descriptor, `openOk t`
tells whether the `open(2)` issued at time `t` succeeds, `gettimeofday t` is
`(tv_sec, tv_usec)` at time `t`, and `strftime fmt sec` is the text produced by
`strftime(tstr, sizeof(tstr), fmt, localtime_r(sec))` (empty when it returns 0). -/
structure Env where
  write : Nat → Nat → Int
  openOk : Nat → Bool
  gettimeofday : Nat → Nat × Nat
  strftime : List Char → Nat → List Char

/-- File-scope variables of `remotetrx.cpp` used by the log sink and the
handlers, the `static bool print_timestamp` of `logfile_write`, and the
operating-system side: open log handles (open file descriptions, numbered in
order of creation), the number of system calls made so far, and their history. -/
structure State where
  logfile_name : Option String
  logfd : Option Nat
  print_timestamp : Bool
  tstamp_format : List Char
  stdin_watch : Bool
  quit_requested : Bool
  openFds : List Nat
  nextFd : Nat
  clock : Nat
  trace : List Event
  deriving DecidableEq, Repr

/-- State at program start: `logfd = -1`, `print_timestamp = true`,
`tstamp_format = "%c"` (set in `main` before the configuration is read). -/
def State.initial (logfile_name : Option String) : State :=
  { logfile_name := logfile_name, logfd := none, print_timestamp := true,
    tstamp_format := "%c".toList, stdin_watch := false, quit_requested := false,
    openFds := [], nextFd := 3, clock := 0, trace := [] }

/-! ## C string primitives -/

/-- Contents of the C string stored at a pointer: the bytes before the first NUL. -/
def cstr (p : List Char) : List Char := p.takeWhile (fun c => c != NUL)

/-- Length of the C string: `strlen(p)`. -/
def strlen (p : List Char) : Nat := (cstr p).length

/-- Byte under the pointer: `*p`; the end of the list is the terminating NUL. -/
def deref (p : List Char) : Char := p.headD NUL

/-- Offset of the first occurrence of `c` in the C string, the terminator
included: `strchr(p, c) - p`, `none` for a null result. -/
def strchr : List Char → Char → Option Nat
  | [], c => if c = NUL then some 0 else none
  | x :: xs, c =>
    if x = c then some 0
    else if x = NUL then none
    else (strchr xs c).map (fun i => i + 1)

/-- A byte sequence without NUL bytes. -/
def NulFree (p : List Char) : Prop := ∀ c ∈ p, c ≠ NUL

instance (p : List Char) : Decidable (NulFree p) :=
  inferInstanceAs (Decidable (∀ c ∈ p, c ≠ NUL))

/-! ## Operating system calls -/

/-- Call `write(fd, bytes, bytes.length)` from call site `site`. A write on `-1`
or on a closed handle fails with `-1`; otherwise the environment decides. -/
def os_write (env : Env) (st : State) (fd : Option Nat) (site : Site)
    (bytes : List Char) : Int × State :=
  let ret : Int :=
    match fd with
    | none => -1
    | some h => if h ∈ st.openFds then env.write st.clock bytes.length else -1
  (ret, { st with clock := st.clock + 1,
                  trace := st.trace ++ [Event.write fd site bytes ret] })

/-- Call `close(h)`. -/
def os_close (st : State) (h : Nat) : State :=
  { st with openFds := st.openFds.erase h, clock := st.clock + 1,
            trace := st.trace ++ [Event.close h] }

/-- Call `open(path, O_WRONLY | O_APPEND | O_CREAT, 00644)`; a null path fails. -/
def os_open (env : Env) (st : State) (path : Option String) : Option Nat × State :=
  let res : Option Nat :=
    match path with
    | none => none
    | some _ => if env.openOk st.clock then some st.nextFd else none
  (res, { st with openFds := st.openFds ++ res.toList,
                  nextFd := st.nextFd + res.toList.length,
                  clock := st.clock + 1,
                  trace := st.trace ++ [Event.openFile path res] })

/-! ## Time stamps -/

/-- Offset of the first occurrence of `pat` in `s`: `s.find(pat)`, `none` for
`string::npos`. -/
def findSub (pat : List Char) : List Char → Option Nat
  | [] => if pat = [] then some 0 else none
  | c :: cs =>
    if pat.isPrefixOf (c :: cs) then some 0 else (findSub pat cs).map (fun i => i + 1)

/-- Decimal text of `n`, left-padded with `'0'` to width 3:
`ss << setfill('0') << setw(3) << n`. -/
def pad3 (n : Nat) : List Char :=
  let d := (Nat.repr n).toList
  List.replicate (3 - d.length) '0' ++ d

/-- The format handed to `strftime`: `tstamp_format` with the first `"%f"`
replaced by the millisecond fraction of the current time. -/
def expandFrac (fmt : List Char) (tv_usec : Nat) : List Char :=
  let frac_code := "%f".toList
  match findSub frac_code fmt with
  | some pos => fmt.take pos ++ pad3 (tv_usec / 1000) ++ fmt.drop (pos + frac_code.length)
  | none => fmt

/-- The time stamp token `tstr[0 .. tlen)` built by `logfile_write_timestamp`
when it runs at time `t`. -/
def tstampToken (env : Env) (fmt : List Char) (t : Nat) : List Char :=
  let tv := env.gettimeofday t
  env.strftime (expandFrac fmt tv.2) tv.1

/-- Function `logfile_write_timestamp`: with a non-empty format, write the token and then
`": "` to `logfd`; the result is `false` as soon as one of the two writes does not
return the requested length. With an empty format nothing is written. -/
def logfile_write_timestamp (env : Env) (st : State) : Bool × State :=
  if !st.tstamp_format.isEmpty then
    let tstr := tstampToken env st.tstamp_format st.clock
    let (ret, st1) := os_write env st st.logfd Site.tstamp tstr
    if ret ≠ (tstr.length : Int) then (false, st1)
    else
      let (ret2, st2) := os_write env st1 st1.logfd Site.sep [':', ' ']
      if ret2 ≠ 2 then (false, st2) else (true, st2)
  else (true, st)

/-! ## Log file open, reopen and write -/

/-- Function `logfile_open`: close `logfd` when it is not `-1`, then open `logfile_name`
and store the result in `logfd`; on failure report with `perror` and return
`false`. -/
def logfile_open (env : Env) (st : State) : Bool × State :=
  let st1 := match st.logfd with
    | some h => os_close st h
    | none => st
  let (res, st2) := os_open env st1 st1.logfile_name
  let st3 := { st2 with logfd := res }
  match res with
  | none =>
    (false, { st3 with trace := st3.trace ++
      [Event.perror ("open(\"" ++ st3.logfile_name.getD "" ++ "\")")] })
  | some _ => (true, st3)

/-- Function `logfile_reopen(reason)`: time stamp and "Reopening logfile" marker on the
current `logfd`, `logfile_open`, time stamp and "Logfile reopened" marker on the
resulting `logfd`. All results are discarded. -/
def logfile_reopen (env : Env) (st : State) (reason : List Char) : State :=
  let st1 := (logfile_write_timestamp env st).2
  let msg := cstr reason ++ ". Reopening logfile\n".toList
  let st2 := (os_write env st1 st1.logfd Site.marker msg).2
  let st3 := (logfile_open env st2).2
  let st4 := (logfile_write_timestamp env st3).2
  let msg2 := cstr reason ++ ". Logfile reopened\n".toList
  (os_write env st4 st4.logfd Site.marker msg2).2

/-- The reason passed by `logfile_write` on a failed write. -/
def writeError : List Char := "Write error".toList

/-- The `while (*ptr != 0)` loop of `logfile_write`, with `fuel` bounding the
number of iterations (`none` when the bound is hit). One iteration: emit the
time stamp if `print_timestamp` is set and clear the flag; take the run up to and
including the next `'\n'` (setting the flag) or else the rest of the string;
write it; advance. A failed or short write reopens the log and returns. -/
def logfile_write_loop (env : Env) : Nat → List Char → State → Option State
  | 0, _, _ => none
  | fuel + 1, ptr, st =>
    if deref ptr = NUL then some st
    else
      let r : State ⊕ State :=
        if st.print_timestamp then
          let (ok, s1) := logfile_write_timestamp env st
          if !ok then Sum.inl (logfile_reopen env s1 writeError)
          else Sum.inr { s1 with print_timestamp := false }
        else Sum.inr st
      match r with
      | Sum.inl done => some done
      | Sum.inr st1 =>
        let (write_len, st2) : Nat × State :=
          match strchr ptr NL with
          | some nl => (nl + 1, { st1 with print_timestamp := true })
          | none => (strlen ptr, st1)
        let (ret, st3) := os_write env st2 st2.logfd Site.data (ptr.take write_len)
        if ret ≠ (write_len : Int) then some (logfile_reopen env st3 writeError)
        else logfile_write_loop env fuel (ptr.drop write_len) st3

/-- Function `logfile_write(buf)`: with `logfd == -1` the string goes to `cout`;
otherwise it is written line by line by the loop. The loop advances by at
least one byte per iteration, so `strlen(buf) + 1` iterations are allowed. -/
def logfile_write (env : Env) (st : State) (buf : List Char) : Option State :=
  match st.logfd with
  | none => some { st with trace := st.trace ++ [Event.cout (cstr buf)] }
  | some _ => logfile_write_loop env (strlen buf + 1) buf st

/-! ## Event-loop handlers -/

/-- Function `stdout_handler`: `reads` are the results of the successive
`read(w->fd(), buf, 255)` calls on the capture pipe (the empty list for a read
returning 0; running out of results is a read returning `-1`). Every non-empty
result is NUL-terminated and passed to `logfile_write`; the loop stops at the
first read that returns no bytes. -/
def stdout_handler (env : Env) : List (List Char) → State → Option State
  | [], st => some st
  | buf :: rest, st =>
    if 0 < buf.length then
      match logfile_write env st buf with
      | some st1 => stdout_handler env rest st1
      | none => none
    else some st

/-- Result of the one-byte `read(STDIN_FILENO, buf, 1)` in `stdinHandler`:
`-1`, `0`, or one byte. -/
inductive StdinRead where
  | error
  | eof
  | byte (c : Char)
  deriving DecidableEq, Repr

/-- The call `Application::app().quit()`: ask the event loop to terminate. -/
def app_quit (st : State) : State :=
  { st with quit_requested := true, trace := st.trace ++ [Event.quit] }

/-- Function `stdinHandler`: a read error is reported on stderr and requests termination;
a read of 0 bytes deletes the stdin watch; `'Q'` (after `toupper`) requests
termination; `'\n'` is echoed; every other byte is ignored. -/
def stdinHandler (st : State) (r : StdinRead) : State :=
  match r with
  | StdinRead.error =>
    app_quit { st with trace := st.trace ++
      [Event.cerr "*** ERROR: Reading from stdin failed\n".toList] }
  | StdinRead.eof => { st with stdin_watch := false }
  | StdinRead.byte c =>
    if c.toUpper = 'Q' then app_quit st
    else if c.toUpper = '\n' then { st with trace := st.trace ++ [Event.cout ['\n']] }
    else st

/-- Signal numbers (Linux). -/
def SIGHUP : Nat := 1
/-- Interrupt signal number. -/
def SIGINT : Nat := 2
/-- Termination signal number. -/
def SIGTERM : Nat := 15

/-- Function `sighup_handler`: without a log file name print "Ignoring SIGHUP" on
`cout`; otherwise reopen the log. -/
def sighup_handler (env : Env) (st : State) : State :=
  match st.logfile_name with
  | none => { st with trace := st.trace ++ [Event.cout "Ignoring SIGHUP\n".toList] }
  | some _ => logfile_reopen env st "SIGHUP received".toList

/-- Function `sigterm_handler`: log "\n<signame> received. Shutting down application...\n"
through `logfile_write`, then request termination. -/
def sigterm_handler (env : Env) (st : State) (signal : Nat) : Option State :=
  let signame : String :=
    if signal = SIGTERM then "SIGTERM"
    else if signal = SIGINT then "SIGINT"
    else "???"
  let msg := "\n" ++ signame ++ " received. Shutting down application...\n"
  match logfile_write env st msg.toList with
  | some st1 => some (app_quit st1)
  | none => none

/-- Function `handle_unix_signal`: dispatch on the signal number; other signals do
nothing. -/
def handle_unix_signal (env : Env) (st : State) (signum : Nat) : Option State :=
  if signum = SIGHUP then some (sighup_handler env st)
  else if signum = SIGINT ∨ signum = SIGTERM then sigterm_handler env st signum
  else some st

/-! ## Observations on a trace -/

/-- Bytes that a `write` returning `ret` appended: the first `ret` requested
bytes, nothing on `-1`. -/
def written (req : List Char) (ret : Int) : List Char := req.take ret.toNat

/-- Bytes appended through handle `h` by the events of a trace, in order. -/
def fileBytes (h : Nat) : List Event → List Char
  | [] => []
  | Event.write fd _ req ret :: es =>
    (if fd = some h then written req ret else []) ++ fileBytes h es
  | _ :: es => fileBytes h es

/-- Bytes appended through handle `h` from call site `site` only. -/
def siteBytes (h : Nat) (site : Site) : List Event → List Char
  | [] => []
  | Event.write fd s req ret :: es =>
    (if fd = some h ∧ s = site then written req ret else []) ++ siteBytes h site es
  | _ :: es => siteBytes h site es

/-- Log bytes through `h` with the inserted time stamp tokens and `": "`
separators removed: what the data and marker call sites appended. -/
def payloadBytes (h : Nat) : List Event → List Char
  | [] => []
  | Event.write fd s req ret :: es =>
    (if fd = some h ∧ s ≠ Site.tstamp ∧ s ≠ Site.sep then written req ret else [])
      ++ payloadBytes h es
  | _ :: es => payloadBytes h es

/-- Every `write(2)` on an open descriptor transfers all requested bytes. -/
def WritesSucceed (env : Env) : Prop := ∀ t n, env.write t n = (n : Int)

/-- An environment in which every call succeeds, with a constant time stamp. -/
def okEnv (ts : List Char) : Env :=
  { write := fun _ n => (n : Int), openOk := fun _ => true,
    gettimeofday := fun _ => (0, 0), strftime := fun _ _ => ts }

/-- A state with the log open on handle 3. -/
def openState : State :=
  { State.initial (some "/var/log/remotetrx") with logfd := some 3, openFds := [3], nextFd := 4 }

/-! ## Specification-side definitions -/

/-- The payload with `pfx` inserted in front of the first byte of every logical
line; `f` tells whether the payload starts a new line. -/
def stampLines (pfx : List Char) : Bool → List Char → List Char
  | _, [] => []
  | f, c :: cs => (if f then pfx else []) ++ c :: stampLines pfx (c == NL) cs

/-- The new-line flag after a payload: whether its last byte is a line
terminator; unchanged for the empty payload. -/
def flagAfter : Bool → List Char → Bool
  | f, [] => f
  | _, c :: cs => flagAfter (c == NL) cs

/-- What `logfile_write_timestamp` puts in front of a line when run at time `t`:
token and separator, or nothing for an empty format. -/
def tsPrefixAt (env : Env) (fmt : List Char) (t : Nat) : List Char :=
  if fmt.isEmpty then [] else tstampToken env fmt t ++ [':', ' ']

/-- The state after the system calls `evs` have been made. -/
def State.advance (st : State) (evs : List Event) : State :=
  { st with clock := st.clock + evs.length, trace := st.trace ++ evs }

/-- The two writes of a successful `logfile_write_timestamp` on handle `h`. -/
def tsEvents (env : Env) (st : State) (h : Nat) : List Event :=
  if st.tstamp_format.isEmpty then []
  else
    let tstr := tstampToken env st.tstamp_format st.clock
    [Event.write (some h) Site.tstamp tstr tstr.length,
     Event.write (some h) Site.sep [':', ' '] 2]

/-- Length of the run written by one iteration of the `logfile_write` loop. -/
def runLen (ptr : List Char) : Nat :=
  match strchr ptr NL with
  | some nl => nl + 1
  | none => strlen ptr

/-- A `write` that did not return the requested length. -/
def Event.failedWrite : Event → Bool
  | Event.write _ _ req ret => decide (ret ≠ (req.length : Int))
  | _ => false

/-- A `write` issued from the given call site. -/
def Event.fromSite (site : Site) : Event → Bool
  | Event.write _ s _ _ => decide (s = site)
  | _ => false

/-- An `open(2)` call. -/
def Event.isOpen : Event → Bool
  | Event.openFile _ _ => true
  | _ => false

/-- A `write(2)` call. -/
def Event.isWrite : Event → Bool
  | Event.write _ _ _ _ => true
  | _ => false

/-- Effect of one event on the set of open log handles. -/
def applyFd (fds : List Nat) : Event → List Nat
  | Event.close h => fds.erase h
  | Event.openFile _ res => fds ++ res.toList
  | _ => fds

/-- Open log handles after a sequence of events. -/
def replayFds (fds : List Nat) (es : List Event) : List Nat := es.foldl applyFd fds

/-- The events of one successful iteration of the `logfile_write` loop on
handle `h`: the time stamp if a line starts, then the run. -/
def iterEvents (env : Env) (st : State) (h : Nat) (ptr : List Char) : List Event :=
  (if st.print_timestamp then tsEvents env st h else [])
    ++ [Event.write (some h) Site.data (ptr.take (runLen ptr)) (runLen ptr)]

/-- The sink is untouched between two states: same file name, descriptor,
format, watches, termination request and open handles. -/
def SameSink (st st' : State) : Prop :=
  st'.logfile_name = st.logfile_name ∧ st'.logfd = st.logfd
    ∧ st'.tstamp_format = st.tstamp_format ∧ st'.stdin_watch = st.stdin_watch
    ∧ st'.quit_requested = st.quit_requested ∧ st'.openFds = st.openFds
    ∧ st'.nextFd = st.nextFd

/-- A successful `write` on handle `h` from one of the call sites of
`logfile_write` (time stamp, separator, data run). -/
def Event.okWriteOn (h : Nat) : Event → Bool
  | Event.write fd site req ret =>
    decide (fd = some h ∧ ret = (req.length : Int) ∧ site ≠ Site.marker)
  | _ => false

/-- Second half of the loop body of `logfile_write`: set the flag when the run
ends in a line terminator, write the run, and reopen the log if the write did
not return the requested length. `Sum.inl s`: the function returned in state
`s`; `Sum.inr s`: the loop goes on in state `s`. -/
def loop_tail (env : Env) (ptr : List Char) (st1 : State) : State ⊕ State :=
  let st2 : State :=
    if (strchr ptr NL).isSome then { st1 with print_timestamp := true } else st1
  let (ret, st3) := os_write env st2 st2.logfd Site.data (ptr.take (runLen ptr))
  if ret ≠ (runLen ptr : Int) then Sum.inl (logfile_reopen env st3 writeError)
  else Sum.inr st3

/-- Body of the `logfile_write` loop at a pointer that is not at the end of the
string: the time stamp when a line starts, then the run. -/
def loop_iter (env : Env) (ptr : List Char) (st : State) : State ⊕ State :=
  if st.print_timestamp then
    let (ok, s1) := logfile_write_timestamp env st
    if !ok then Sum.inl (logfile_reopen env s1 writeError)
    else loop_tail env ptr { s1 with print_timestamp := false }
  else loop_tail env ptr st

/-- A `write` of a time stamp token or of its separator. -/
def Event.tsWrite : Event → Bool
  | Event.write _ site _ _ => decide (site = Site.tstamp ∨ site = Site.sep)
  | _ => false

/-- A `write` issued by `logfile_write` itself or by its time stamp, not a
marker line. -/
def Event.lwSite : Event → Bool
  | Event.write _ site _ _ => decide (site ≠ Site.marker)
  | _ => false

/-- Passing chunks to `logfile_write` one after another. -/
def write_chunks (env : Env) : List (List Char) → State → Option State
  | [], st => some st
  | buf :: rest, st =>
    match logfile_write env st buf with
    | some st1 => write_chunks env rest st1
    | none => none

/-- A `write` from a call site of `logfile_write` (not a marker line) that
returned the requested length. -/
def Event.cleanWrite : Event → Bool
  | Event.write _ site req ret => decide (ret = (req.length : Int) ∧ site ≠ Site.marker)
  | _ => false

/-- A `close(2)` call. -/
def Event.isClose : Event → Bool
  | Event.close _ => true
  | _ => false

/-- At every point of the event sequence at most one log handle is open. -/
def AtMostOneOpen (fds : List Nat) (evs : List Event) : Prop :=
  ∀ n, (replayFds fds (evs.take n)).length ≤ 1

/-- An event that opens or closes nothing and is not a data write of
`logfile_write`. -/
def Event.aside (e : Event) : Bool := !e.isOpen && !e.isClose && !e.fromSite Site.data

/-- The state after `logfile_open` closed the old descriptor and `open`
returned `res`, with `perr` the error report. -/
def State.opened (st : State) (res : Option Nat) (perr : List Event) : State :=
  { st with
    logfd := res
    openFds := (match st.logfd with
      | some h => st.openFds.erase h
      | none => st.openFds) ++ res.toList
    nextFd := st.nextFd + res.toList.length
    clock := st.clock + st.logfd.toList.length + 1
    trace := st.trace ++ (st.logfd.toList.map Event.close
      ++ [Event.openFile st.logfile_name res] ++ perr) }

/-- An environment in which the `write` issued at time `k` fails with `-1` and
every other call succeeds. -/
def failAt (k : Nat) : Env :=
  { write := fun t n => if t = k then -1 else (n : Int), openOk := fun _ => true,
    gettimeofday := fun _ => (0, 0), strftime := fun _ _ => ['T'] }

/-- An environment in which every `write` succeeds and every `open` fails. -/
def noOpenEnv : Env :=
  { write := fun _ n => (n : Int), openOk := fun _ => false,
    gettimeofday := fun _ => (0, 0), strftime := fun _ _ => ['T'] }

/-- Number of writes of buffer bytes (the `write(logfd, ptr, write_len)` of
`logfile_write`) among the events. -/
def dataWrites (evs : List Event) : Nat := (evs.filter (Event.fromSite Site.data)).length

/-- Output on `cout`, which is what `logfile_write` produces without a log file. -/
def Event.isCout : Event → Bool
  | Event.cout _ => true
  | _ => false

/-- Number of runs the loop of `logfile_write` cuts a C string into: one per
line terminator, and one more for an unterminated rest. -/
def lineBound (c : List Char) : Nat := c.count NL + (if flagAfter true c then 0 else 1)

/-- The state in which one pass through the body of the loop ends, whether the
function returned there or the loop goes on. -/
def iterState (r : State ⊕ State) : State :=
  match r with
  | Sum.inl s => s
  | Sum.inr s => s

/-- A call into the log sink. -/
inductive SinkCall where
  | write (buf : List Char)
  | reopen (reason : List Char)
  deriving DecidableEq, Repr

/-- A sequence of `logfile_write` and `logfile_reopen` calls, run in order. -/
def run_calls (env : Env) : List SinkCall → State → Option State
  | [], st => some st
  | SinkCall.write buf :: rest, st =>
    match logfile_write env st buf with
    | some st1 => run_calls env rest st1
    | none => none
  | SinkCall.reopen reason :: rest, st => run_calls env rest (logfile_reopen env st reason)

/-- Bytes one event appended to the log, through whichever handle. -/
def Event.logged : Event → List Char
  | Event.write _ _ req ret => written req ret
  | _ => []

/-- The byte stream written to the log by the events of a trace, in order. -/
def logBytes : List Event → List Char
  | [] => []
  | e :: es => e.logged ++ logBytes es

/-- A byte stream is at a logical line boundary: it is empty or its last byte
is a line terminator. -/
def atLineStart (s : List Char) : Bool :=
  match s.getLast? with
  | none => true
  | some c => c == NL

/-- The writes of time stamp tokens among `evs` that do not begin at a logical
line boundary, `s` being the stream written before `evs`. -/
def misplacedStamps (s : List Char) : List Event → List Event
  | [] => []
  | e :: es =>
    (if e.fromSite Site.tstamp && !atLineStart s then [e] else [])
      ++ misplacedStamps (s ++ e.logged) es

/-- Number of `logfile_reopen` calls of a sequence that are made in the middle
of a line; `b` tells whether the stream is at a line boundary before the
sequence. A write moves the stream to where its string ends, a reopen leaves it
behind the terminator of its last marker line. -/
def midLineReopens : Bool → List SinkCall → Nat
  | _, [] => 0
  | b, SinkCall.write buf :: rest => midLineReopens (flagAfter b (cstr buf)) rest
  | b, SinkCall.reopen _ :: rest => (if b then 0 else 1) + midLineReopens true rest

/-- The sink as `main` leaves it after `logfile_open`, and as every successful
call leaves it again: the log is open on the only open handle, the file name
is set, the format is not empty, and a set new-line flag means that the stream
written so far is at a line boundary. -/
def SinkReady (st : State) : Prop :=
  ∃ h name, st.logfd = some h ∧ st.openFds = [h] ∧ st.logfile_name = some name
    ∧ st.tstamp_format ≠ []
    ∧ (st.print_timestamp = true → atLineStart (logBytes st.trace) = true)

/-! ## Start-up and shut-down in `main` -/

/-- How a start-up step of `main` ends: `exit(status)` or control goes on with
the name of the primary configuration file. -/
inductive StartupResult where
  | exited (status : Nat)
  | proceed (main_cfg_filename : String)
  deriving DecidableEq, Repr

/-- Outcome of the configuration search: the arguments of the `cfg.open`
calls in call order, the text sent to `cerr`, and how the step ends. -/
structure ConfigSearch where
  tried : List String
  cerr : String
  result : StartupResult
  deriving DecidableEq, Repr

/-- Text listing the three default candidates after all of them failed. -/
def configErrorText (home_dir svxDir sysDir : String) (errno_text : Option String) : String :=
  "*** ERROR: Could not open configuration file"
    ++ (match errno_text with
        | some e => " (" ++ e ++ ")"
        | none => "")
    ++ ".\n"
    ++ "Tried the following paths:\n"
    ++ "\t" ++ home_dir ++ "/.svxlink/remotetrx.conf\n"
    ++ "\t" ++ svxDir ++ "/remotetrx.conf\n"
    ++ "\t" ++ sysDir ++ "/remotetrx.conf\n"
    ++ "Possible reasons for failure are: None of the files exist,\n"
    ++ "you do not have permission to read the file or there was a\n"
    ++ "syntax error in the file.\n"

/-- Configuration discovery of `main` (the block from `Config cfg;` to
`string main_cfg_filename(cfg_filename);`). `config` is the `--config`
argument, `cfg_open` the outcome of `Config::open` on a path, `errno_text` the
`strerror(errno)` text when `errno != 0`; the install directories are the
build-time constants `SVX_SYSCONF_INSTALL_DIR` and `SYSCONF_INSTALL_DIR`. -/
def main_config (config : Option String) (home_dir : String)
    (SVX_SYSCONF_INSTALL_DIR SYSCONF_INSTALL_DIR : String)
    (cfg_open : String → Bool) (errno_text : Option String) : ConfigSearch :=
  match config with
  | some c =>
    let cfg_filename := c
    if !cfg_open cfg_filename then
      { tried := [cfg_filename],
        cerr := "*** ERROR: Could not open configuration file: " ++ c ++ "\n",
        result := StartupResult.exited 1 }
    else
      { tried := [cfg_filename], cerr := "", result := StartupResult.proceed cfg_filename }
  | none =>
    let f1 := home_dir ++ "/.svxlink/remotetrx.conf"
    if !cfg_open f1 then
      let f2 := SVX_SYSCONF_INSTALL_DIR ++ "/remotetrx.conf"
      if !cfg_open f2 then
        let f3 := SYSCONF_INSTALL_DIR ++ "/remotetrx.conf"
        if !cfg_open f3 then
          { tried := [f1, f2, f3],
            cerr := configErrorText home_dir SVX_SYSCONF_INSTALL_DIR SYSCONF_INSTALL_DIR
              errno_text,
            result := StartupResult.exited 1 }
        else { tried := [f1, f2, f3], cerr := "", result := StartupResult.proceed f3 }
      else { tried := [f1, f2], cerr := "", result := StartupResult.proceed f2 }
    else { tried := [f1], cerr := "", result := StartupResult.proceed f1 }

/-- The default candidates in the order `main` tries them. -/
def configCandidates (home_dir svxDir sysDir : String) : List String :=
  [home_dir ++ "/.svxlink/remotetrx.conf", svxDir ++ "/remotetrx.conf",
   sysDir ++ "/remotetrx.conf"]

/-- The `for` loop of `main` over the names in `GLOBAL/TRXS`: every unit is
announced, constructed and initialised; a unit whose `initialize()` fails is
reported and dropped, the others are collected in `trx_handlers`. -/
def setup_trxs (trx_init : String → Bool) : List String → List String × List Event
  | [] => ([], [])
  | name :: rest =>
    let (handlers, evs) := setup_trxs trx_init rest
    let hello := Event.cout ("Setting up trx \"" ++ name ++ "\"\n").toList
    if !trx_init name then
      (handlers, hello :: Event.cerr ("*** ERROR: Failed to setup trx " ++ name ++ "\n").toList
        :: evs)
    else (name :: handlers, hello :: Event.cout ['\n'] :: evs)

/-- What the end of `main` did: its output and event-loop calls, and the value
it returned. -/
structure MainEnd where
  trace : List Event
  exit_status : Nat
  deriving DecidableEq, Repr

/-- The end of `main`, from the unit set-up to `return 0`: `trxs` is
`GLOBAL/TRXS` split at commas, `trx_init` the outcome of
`TrxHandler::initialize` per unit, `reset` the `--reset` flag. With at least
one unit the event loop runs (`app.exec()`, after a `quit()` request under
`--reset`); with none an error is printed. The tear-down that follows (units,
log flush, watches, descriptors) has no influence on the returned value, which
is the constant 0. -/
def main_trx (trx_init : String → Bool) (trxs : List String) (reset : Bool) : MainEnd :=
  let (trx_handlers, evs) := setup_trxs trx_init trxs
  let evs2 : List Event :=
    if !trx_handlers.isEmpty then
      (if reset then [Event.cout "Initialization done. Exiting.\n".toList, Event.quit]
       else []) ++ [Event.exec]
    else [Event.cerr "*** ERROR: No trxs successfully initialized. Bailing out...\n".toList]
  { trace := evs ++ evs2, exit_status := 0 }

end RemoteTrx

namespace RemoteTrx

/-! ## C strings and runs -/

theorem cstr_nil : cstr [] = [] := rfl

theorem cstr_cons (c : Char) (cs : List Char) :
    cstr (c :: cs) = if c = NUL then [] else c :: cstr cs := by
  unfold cstr
  by_cases h : c = NUL <;> simp [List.takeWhile_cons, h]

theorem NL_ne_NUL : NL ≠ NUL := by decide

theorem cstr_of_nulFree (p : List Char) (h : NulFree p) : cstr p = p := by
  induction p with
  | nil => rfl
  | cons c cs ih =>
    have hc : c ≠ NUL := h c (by simp)
    have hcs : NulFree cs := fun x hx => h x (by simp [hx])
    rw [cstr_cons, if_neg hc, ih hcs]

theorem cstr_nulFree (p : List Char) : NulFree (cstr p) := by
  induction p with
  | nil => intro c hc; simp [cstr_nil] at hc
  | cons c cs ih =>
    rw [cstr_cons]
    by_cases h : c = NUL
    · simp [h, NulFree]
    · rw [if_neg h]
      intro x hx
      rcases List.mem_cons.mp hx with rfl | hx
      · exact h
      · exact ih x hx

theorem cstr_idem (p : List Char) : cstr (cstr p) = cstr p :=
  cstr_of_nulFree _ (cstr_nulFree p)

theorem deref_cons (c : Char) (cs : List Char) : deref (c :: cs) = c := rfl

theorem cstr_of_deref_nul (p : List Char) (h : deref p = NUL) : cstr p = [] := by
  cases p with
  | nil => rfl
  | cons c cs => rw [deref_cons] at h; rw [cstr_cons, if_pos h]

theorem exists_cons_of_deref (p : List Char) (h : deref p ≠ NUL) :
    ∃ c cs, p = c :: cs ∧ c ≠ NUL := by
  cases p with
  | nil => exact absurd rfl h
  | cons c cs => exact ⟨c, cs, rfl, h⟩

theorem strchr_of_deref_nul (p : List Char) (h : deref p = NUL) : strchr p NL = none := by
  cases p with
  | nil => simp [strchr, NL_ne_NUL]
  | cons c cs =>
    rw [deref_cons] at h
    subst h
    simp [strchr, NL_ne_NUL.symm]

theorem runLen_of_deref_nul (p : List Char) (h : deref p = NUL) : runLen p = 0 := by
  simp [runLen, strchr_of_deref_nul p h, strlen, cstr_of_deref_nul p h]

theorem runLen_cons (c : Char) (cs : List Char) (hc : c ≠ NUL) :
    runLen (c :: cs) = if c = NL then 1 else runLen cs + 1 := by
  by_cases h : c = NL
  · simp [runLen, strchr, h]
  · simp only [runLen, strchr, if_neg h, if_neg hc, strlen, cstr_cons]
    cases strchr cs NL <;> simp

theorem strchr_isSome_cons (c : Char) (cs : List Char) (hc : c ≠ NUL) :
    (strchr (c :: cs) NL).isSome = if c = NL then true else (strchr cs NL).isSome := by
  by_cases h : c = NL
  · simp [strchr, h]
  · simp only [strchr, if_neg h, if_neg hc]
    cases strchr cs NL <;> simp

theorem run_split (p : List Char) :
    cstr p = p.take (runLen p) ++ cstr (p.drop (runLen p))
      ∧ (p.take (runLen p)).length = runLen p ∧ runLen p ≤ strlen p := by
  induction p with
  | nil => simp [runLen_of_deref_nul [] rfl, cstr_nil]
  | cons c cs ih =>
    by_cases hc : c = NUL
    · have h0 : runLen (c :: cs) = 0 := runLen_of_deref_nul _ hc
      simp [h0]
    · rw [runLen_cons c cs hc]
      by_cases hn : c = NL
      · simp [hn, strlen, cstr_cons, NL_ne_NUL]
      · obtain ⟨ih1, ih2, ih3⟩ := ih
        simp only [if_neg hn, List.take_succ_cons, List.drop_succ_cons, cstr_cons, if_neg hc,
          List.cons_append, List.length_cons, strlen]
        refine ⟨?_, ?_, ?_⟩
        · rw [← ih1]
        · rw [ih2]
        · exact Nat.succ_le_succ ih3

theorem runLen_pos (p : List Char) (h : deref p ≠ NUL) : 0 < runLen p := by
  obtain ⟨c, cs, rfl, hc⟩ := exists_cons_of_deref p h
  rw [runLen_cons c cs hc]
  split <;> omega

theorem strlen_drop_run (p : List Char) (h : deref p ≠ NUL) :
    strlen (p.drop (runLen p)) < strlen p := by
  have h1 := (run_split p).1
  have h2 := (run_split p).2.1
  have h3 := runLen_pos p h
  have : strlen p = runLen p + strlen (p.drop (runLen p)) := by
    unfold strlen
    conv_lhs => rw [h1]
    rw [List.length_append, h2]
  omega

theorem stamp_run_false (pfx : List Char) (p : List Char) :
    stampLines pfx false (cstr p)
        = p.take (runLen p) ++ stampLines pfx (strchr p NL).isSome (cstr (p.drop (runLen p)))
      ∧ flagAfter false (cstr p)
        = flagAfter (strchr p NL).isSome (cstr (p.drop (runLen p))) := by
  induction p with
  | nil =>
    simp [runLen_of_deref_nul [] rfl, cstr_nil, strchr_of_deref_nul [] rfl, stampLines,
      flagAfter]
  | cons c cs ih =>
    by_cases hc : c = NUL
    · have h0 : runLen (c :: cs) = 0 := runLen_of_deref_nul _ hc
      have h1 : strchr (c :: cs) NL = none := strchr_of_deref_nul _ hc
      have h2 : cstr (c :: cs) = [] := cstr_of_deref_nul _ hc
      simp [h0, h1, h2, stampLines, flagAfter]
    · rw [runLen_cons c cs hc, strchr_isSome_cons c cs hc, cstr_cons, if_neg hc]
      by_cases hn : c = NL
      · simp [hn, stampLines, flagAfter]
      · have hb : (c == NL) = false := by simpa using hn
        simp only [if_neg hn, stampLines, flagAfter, hb, List.take_succ_cons,
          List.drop_succ_cons, List.cons_append, ih.1, ih.2]
        simp

theorem stamp_run (pfx : List Char) (f : Bool) (p : List Char) (h : deref p ≠ NUL) :
    stampLines pfx f (cstr p)
        = (if f then pfx else []) ++ p.take (runLen p)
            ++ stampLines pfx (strchr p NL).isSome (cstr (p.drop (runLen p)))
      ∧ flagAfter f (cstr p)
        = flagAfter (strchr p NL).isSome (cstr (p.drop (runLen p))) := by
  obtain ⟨c, cs, rfl, hc⟩ := exists_cons_of_deref p h
  rw [runLen_cons c cs hc, strchr_isSome_cons c cs hc, cstr_cons, if_neg hc]
  by_cases hn : c = NL
  · simp [hn, stampLines, flagAfter]
  · have hb : (c == NL) = false := by simpa using hn
    have ih := stamp_run_false pfx cs
    simp only [if_neg hn, stampLines, flagAfter, hb, List.take_succ_cons,
      List.drop_succ_cons, List.cons_append, ih.1, ih.2]
    simp

theorem stampLines_append (pfx : List Char) (f : Bool) (a b : List Char) :
    stampLines pfx f (a ++ b) = stampLines pfx f a ++ stampLines pfx (flagAfter f a) b := by
  induction a generalizing f with
  | nil => simp [stampLines, flagAfter]
  | cons c cs ih => simp [stampLines, flagAfter, ih]

theorem flagAfter_append (f : Bool) (a b : List Char) :
    flagAfter f (a ++ b) = flagAfter (flagAfter f a) b := by
  induction a generalizing f with
  | nil => simp [flagAfter]
  | cons c cs ih => simp [flagAfter, ih]

theorem stampLines_nil_pfx (f : Bool) (a : List Char) : stampLines [] f a = a := by
  induction a generalizing f with
  | nil => simp [stampLines]
  | cons c cs ih => simp [stampLines, ih]

theorem flagAfter_of_getLast (f : Bool) (a : List Char) (b : Char)
    (h : a.getLast? = some b) : flagAfter f a = (b == NL) := by
  induction a generalizing f with
  | nil => simp at h
  | cons c cs ih =>
    cases cs with
    | nil =>
      simp at h
      simp [flagAfter, h]
    | cons d ds =>
      rw [List.getLast?_cons_cons] at h
      simp only [flagAfter] at ih ⊢
      exact ih false h

/-! ## Observations are additive over traces -/

theorem fileBytes_append (h : Nat) (a b : List Event) :
    fileBytes h (a ++ b) = fileBytes h a ++ fileBytes h b := by
  induction a with
  | nil => simp [fileBytes]
  | cons e es ih => cases e <;> simp [fileBytes, ih]

theorem payloadBytes_append (h : Nat) (a b : List Event) :
    payloadBytes h (a ++ b) = payloadBytes h a ++ payloadBytes h b := by
  induction a with
  | nil => simp [payloadBytes]
  | cons e es ih => cases e <;> simp [payloadBytes, ih]

theorem siteBytes_append (h : Nat) (site : Site) (a b : List Event) :
    siteBytes h site (a ++ b) = siteBytes h site a ++ siteBytes h site b := by
  induction a with
  | nil => simp [siteBytes]
  | cons e es ih => cases e <;> simp [siteBytes, ih]

theorem written_full (req : List Char) : written req (req.length : Int) = req := by
  simp [written]

theorem written_take (p : List Char) (n : Nat) : written (p.take n) (n : Int) = p.take n := by
  simp [written, List.take_take]

/-! ## System calls that succeed -/

@[simp]
theorem advance_logfd (st : State) (evs : List Event) :
    (st.advance evs).logfd = st.logfd := rfl
@[simp]
theorem advance_openFds (st : State) (evs : List Event) :
    (st.advance evs).openFds = st.openFds := rfl
@[simp]
theorem advance_format (st : State) (evs : List Event) :
    (st.advance evs).tstamp_format = st.tstamp_format := rfl
@[simp]
theorem advance_flag (st : State) (evs : List Event) :
    (st.advance evs).print_timestamp = st.print_timestamp := rfl
@[simp]
theorem advance_trace (st : State) (evs : List Event) :
    (st.advance evs).trace = st.trace ++ evs := rfl
@[simp]
theorem advance_clock (st : State) (evs : List Event) :
    (st.advance evs).clock = st.clock + evs.length := rfl

theorem advance_nil (st : State) : st.advance [] = st := by
  simp [State.advance]

theorem advance_advance (st : State) (a b : List Event) :
    (st.advance a).advance b = st.advance (a ++ b) := by
  simp [State.advance, Nat.add_assoc]

theorem os_write_ok (env : Env) (hw : WritesSucceed env) (st : State) (h : Nat)
    (hopen : h ∈ st.openFds) (site : Site) (bytes : List Char) :
    os_write env st (some h) site bytes
      = ((bytes.length : Int), st.advance [Event.write (some h) site bytes bytes.length]) := by
  simp [os_write, State.advance, hopen, hw _ _]

theorem timestamp_ok (env : Env) (hw : WritesSucceed env) (st : State) (h : Nat)
    (hfd : st.logfd = some h) (hopen : h ∈ st.openFds) :
    logfile_write_timestamp env st = (true, st.advance (tsEvents env st h)) := by
  unfold logfile_write_timestamp tsEvents
  by_cases he : st.tstamp_format.isEmpty = true
  · simp [he, advance_nil]
  · simp only [he, Bool.not_false, if_true, Bool.false_eq_true, if_false]
    simp only [hfd, os_write_ok env hw st h hopen]
    have hopen1 : h ∈ (st.advance [Event.write (some h) Site.tstamp
        (tstampToken env st.tstamp_format st.clock)
        (tstampToken env st.tstamp_format st.clock).length]).openFds := hopen
    simp [advance_logfd, hfd, os_write_ok env hw _ h hopen1, advance_advance]

theorem loop_step_ok (env : Env) (hw : WritesSucceed env) (fuel : Nat) (ptr : List Char)
    (st : State) (h : Nat) (hfd : st.logfd = some h) (hopen : h ∈ st.openFds)
    (hne : deref ptr ≠ NUL) :
    logfile_write_loop env (fuel + 1) ptr st
      = logfile_write_loop env fuel (ptr.drop (runLen ptr))
          { st.advance (iterEvents env st h ptr) with
            print_timestamp := (strchr ptr NL).isSome } := by
  have hrun := (run_split ptr).2.1
  rw [logfile_write_loop, if_neg hne]
  cases hpt : st.print_timestamp
  · cases hs : strchr ptr NL with
    | none =>
      have hl : runLen ptr = strlen ptr := by simp [runLen, hs]
      rw [hl] at hrun
      simp [-List.length_take, hfd, os_write_ok env hw, hopen, iterEvents, hpt, hl, hrun,
        State.advance]
    | some nl =>
      have hl : runLen ptr = nl + 1 := by simp [runLen, hs]
      rw [hl] at hrun
      simp [-List.length_take, hfd, os_write_ok env hw, hopen, iterEvents, hpt, hl, hrun,
        State.advance]
  · cases hs : strchr ptr NL with
    | none =>
      have hl : runLen ptr = strlen ptr := by simp [runLen, hs]
      rw [hl] at hrun
      simp [-List.length_take, hfd, os_write_ok env hw, timestamp_ok env hw st h hfd hopen,
        hopen, iterEvents, hpt, hl, hrun, State.advance, Nat.add_assoc]
    | some nl =>
      have hl : runLen ptr = nl + 1 := by simp [runLen, hs]
      rw [hl] at hrun
      simp [-List.length_take, hfd, os_write_ok env hw, timestamp_ok env hw st h hfd hopen,
        hopen, iterEvents, hpt, hl, hrun, State.advance, Nat.add_assoc]

theorem tsEvents_payload (env : Env) (st : State) (h : Nat) :
    payloadBytes h (tsEvents env st h) = [] := by
  unfold tsEvents
  split <;> simp [payloadBytes]

theorem tsEvents_file (env : Env) (st : State) (h : Nat) :
    fileBytes h (tsEvents env st h) = tsPrefixAt env st.tstamp_format st.clock := by
  unfold tsEvents tsPrefixAt
  split <;> simp [fileBytes, written]

theorem tsEvents_ok (env : Env) (st : State) (h : Nat) :
    ∀ e ∈ tsEvents env st h, e.okWriteOn h = true := by
  unfold tsEvents
  split <;> simp [Event.okWriteOn]

theorem iterEvents_payload (env : Env) (st : State) (h : Nat) (ptr : List Char) :
    payloadBytes h (iterEvents env st h ptr) = ptr.take (runLen ptr) := by
  have hrun := (run_split ptr).2.1
  unfold iterEvents
  rw [payloadBytes_append]
  have h1 : payloadBytes h (if st.print_timestamp then tsEvents env st h else []) = [] := by
    split
    · exact tsEvents_payload env st h
    · rfl
  rw [h1]
  simp [payloadBytes, written_take]

theorem iterEvents_file (env : Env) (st : State) (h : Nat) (ptr : List Char) :
    fileBytes h (iterEvents env st h ptr)
      = (if st.print_timestamp then tsPrefixAt env st.tstamp_format st.clock else [])
          ++ ptr.take (runLen ptr) := by
  have hrun := (run_split ptr).2.1
  unfold iterEvents
  rw [fileBytes_append]
  have h1 : fileBytes h (if st.print_timestamp then tsEvents env st h else [])
      = (if st.print_timestamp then tsPrefixAt env st.tstamp_format st.clock else []) := by
    split
    · exact tsEvents_file env st h
    · rfl
  rw [h1]
  simp [fileBytes, written_take]

theorem iterEvents_ok (env : Env) (st : State) (h : Nat) (ptr : List Char) :
    ∀ e ∈ iterEvents env st h ptr, e.okWriteOn h = true := by
  have hrun := (run_split ptr).2.1
  intro e he
  unfold iterEvents at he
  rcases List.mem_append.mp he with he | he
  · split at he
    · exact tsEvents_ok env st h e he
    · simp at he
  · rw [List.mem_singleton] at he
    subst he
    simp [Event.okWriteOn, hrun]

/-- The loop of `logfile_write` when every write succeeds: it returns, leaves
the sink as it was, issues only successful writes on the log handle, and what
it appends is the C string with a time stamp in front of every line. -/
theorem loop_ok (env : Env) (hw : WritesSucceed env) (h : Nat) :
    ∀ (fuel : Nat) (ptr : List Char) (st : State),
      st.logfd = some h → h ∈ st.openFds → strlen ptr < fuel →
      ∃ st' evs, logfile_write_loop env fuel ptr st = some st'
        ∧ SameSink st st'
        ∧ st'.trace = st.trace ++ evs
        ∧ (∀ e ∈ evs, e.okWriteOn h = true)
        ∧ st'.print_timestamp = flagAfter st.print_timestamp (cstr ptr)
        ∧ payloadBytes h evs = cstr ptr
        ∧ (∀ pfx, (∀ t, tsPrefixAt env st.tstamp_format t = pfx) →
            fileBytes h evs = stampLines pfx st.print_timestamp (cstr ptr)) := by
  intro fuel
  induction fuel with
  | zero => intro ptr st _ _ hlt; exact absurd hlt (Nat.not_lt_zero _)
  | succ fuel ih =>
    intro ptr st hfd hopen hlt
    by_cases hne : deref ptr = NUL
    · have hc : cstr ptr = [] := cstr_of_deref_nul ptr hne
      refine ⟨st, [], ?_, ⟨rfl, rfl, rfl, rfl, rfl, rfl, rfl⟩, by simp, by simp, ?_, ?_, ?_⟩
      · rw [logfile_write_loop, if_pos hne]
      · rw [hc]; rfl
      · rw [hc]; rfl
      · intro pfx _; rw [hc]; rfl
    · rw [loop_step_ok env hw fuel ptr st h hfd hopen hne]
      have hdrop := strlen_drop_run ptr hne
      obtain ⟨st', evs, hrun, hsame, htr, hok, hflag, hpay, hfile⟩ :=
        ih (ptr.drop (runLen ptr))
          { st.advance (iterEvents env st h ptr) with
            print_timestamp := (strchr ptr NL).isSome } hfd hopen (by omega)
      obtain ⟨s1, s2, s3, s4, s5, s6, s7⟩ := hsame
      refine ⟨st', iterEvents env st h ptr ++ evs, hrun, ⟨s1, s2, s3, s4, s5, s6, s7⟩, ?_, ?_,
        ?_, ?_, ?_⟩
      · rw [htr]; simp
      · intro e he
        rcases List.mem_append.mp he with he | he
        · exact iterEvents_ok env st h ptr e he
        · exact hok e he
      · rw [hflag]; exact ((stamp_run [] st.print_timestamp ptr hne).2).symm
      · rw [payloadBytes_append, iterEvents_payload, hpay]
        exact ((run_split ptr).1).symm
      · intro pfx hpfx
        rw [fileBytes_append, iterEvents_file, hfile pfx hpfx, hpfx st.clock]
        exact ((stamp_run pfx st.print_timestamp ptr hne).1).symm

/-! ## The loop under arbitrary write results -/

theorem loop_unfold (env : Env) (fuel : Nat) (ptr : List Char) (st : State) :
    logfile_write_loop env (fuel + 1) ptr st
      = if deref ptr = NUL then some st
        else match loop_iter env ptr st with
          | Sum.inl done => some done
          | Sum.inr s => logfile_write_loop env fuel (ptr.drop (runLen ptr)) s := by
  rw [logfile_write_loop]
  by_cases hne : deref ptr = NUL
  · simp [hne]
  · simp only [if_neg hne]
    unfold loop_iter loop_tail runLen
    cases hpt : st.print_timestamp
    · cases hs : strchr ptr NL <;> simp <;> split <;> simp_all
    · cases hok : (logfile_write_timestamp env st).1
      · simp [hok]
      · cases hs : strchr ptr NL <;> simp [hok] <;> split <;> simp_all

theorem os_write_snd (env : Env) (st : State) (fd : Option Nat) (site : Site)
    (bytes : List Char) :
    (os_write env st fd site bytes).2
      = st.advance [Event.write fd site bytes (os_write env st fd site bytes).1] := rfl

theorem cleanWrite_not_failed (e : Event) (h : e.cleanWrite = true) :
    e.failedWrite = false := by
  cases e <;> simp_all [Event.cleanWrite, Event.failedWrite]

theorem cleanWrite_not_open (e : Event) (h : e.cleanWrite = true) : e.isOpen = false := by
  cases e <;> simp_all [Event.cleanWrite, Event.isOpen]

theorem tsWrite_not_open (e : Event) (h : e.tsWrite = true) : e.isOpen = false := by
  cases e <;> simp_all [Event.tsWrite, Event.isOpen]

theorem tsWrite_not_data (e : Event) (h : e.tsWrite = true) :
    e.fromSite Site.data = false := by
  cases e <;> simp_all [Event.tsWrite, Event.fromSite]
  rcases h with h | h <;> simp [h]

theorem tsWrite_lwSite (e : Event) (h : e.tsWrite = true) : e.lwSite = true := by
  cases e <;> simp_all [Event.tsWrite, Event.lwSite]
  rcases h with h | h <;> simp [h]

theorem clean_of_ts (e : Event) (h : e.tsWrite = true) (hf : e.failedWrite = false) :
    e.cleanWrite = true := by
  cases e <;> simp_all [Event.tsWrite, Event.cleanWrite, Event.failedWrite]
  rcases h with h | h <;> simp [h]

/-- Function `logfile_write_timestamp` under arbitrary write results: it only issues time
stamp and separator writes; it reports success exactly when none of them
failed, and on failure the failed write is the last one. -/
theorem timestamp_general (env : Env) (st : State) :
    ∃ tevs, (logfile_write_timestamp env st).2 = st.advance tevs
      ∧ (∀ e ∈ tevs, e.tsWrite = true)
      ∧ ((logfile_write_timestamp env st).1 = true → ∀ e ∈ tevs, e.failedWrite = false)
      ∧ ((logfile_write_timestamp env st).1 = false →
          ∃ pre w, tevs = pre ++ [w] ∧ (∀ e ∈ pre, e.failedWrite = false)
            ∧ w.failedWrite = true) := by
  unfold logfile_write_timestamp
  by_cases he : st.tstamp_format.isEmpty = true
  · exact ⟨[], by simp [he, advance_nil]⟩
  · simp only [he, Bool.not_false, if_true]
    generalize hr1 : os_write env st st.logfd Site.tstamp
      (tstampToken env st.tstamp_format st.clock) = r1
    have h1 := os_write_snd env st st.logfd Site.tstamp
      (tstampToken env st.tstamp_format st.clock)
    rw [hr1] at h1
    by_cases hret : r1.1 = ((tstampToken env st.tstamp_format st.clock).length : Int)
    · generalize hr2 : os_write env r1.2 r1.2.logfd Site.sep [':', ' '] = r2
      have h2 := os_write_snd env r1.2 r1.2.logfd Site.sep [':', ' ']
      rw [hr2] at h2
      by_cases hret2 : r2.1 = 2
      · refine ⟨[Event.write st.logfd Site.tstamp (tstampToken env st.tstamp_format st.clock)
          r1.1, Event.write r1.2.logfd Site.sep [':', ' '] r2.1], ?_, ?_, ?_, ?_⟩
        · simp [hret, hr2, hret2, h2, h1, advance_advance]
        · simp [Event.tsWrite]
        · intro _; simp [Event.failedWrite, hret, hret2]
        · simp [hret, hr2, hret2]
      · refine ⟨[Event.write st.logfd Site.tstamp (tstampToken env st.tstamp_format st.clock)
          r1.1, Event.write r1.2.logfd Site.sep [':', ' '] r2.1], ?_, ?_, ?_, ?_⟩
        · simp [hret, hr2, hret2, h2, h1, advance_advance]
        · simp [Event.tsWrite]
        · simp [hret, hr2, hret2]
        · intro _
          exact ⟨[Event.write st.logfd Site.tstamp
            (tstampToken env st.tstamp_format st.clock) r1.1], _, rfl,
            by simp [Event.failedWrite, hret], by simp [Event.failedWrite, hret2]⟩
    · refine ⟨[Event.write st.logfd Site.tstamp (tstampToken env st.tstamp_format st.clock)
        r1.1], ?_, ?_, ?_, ?_⟩
      · simp [hret, h1]
      · simp [Event.tsWrite]
      · simp [hret]
      · intro _
        exact ⟨[], _, rfl, by simp, by simp [Event.failedWrite, hret]⟩

theorem loop_tail_general (env : Env) (ptr : List Char) (st1 : State) :
    ∃ w mid, w.lwSite = true ∧ mid.trace = st1.trace ++ [w] ∧
      ((w.cleanWrite = true ∧ loop_tail env ptr st1 = Sum.inr mid)
        ∨ (w.failedWrite = true
            ∧ loop_tail env ptr st1 = Sum.inl (logfile_reopen env mid writeError))) := by
  have hrun := (run_split ptr).2.1
  unfold loop_tail
  generalize hst2 : (if (strchr ptr NL).isSome = true
    then { st1 with print_timestamp := true } else st1) = st2
  have htr : st2.trace = st1.trace := by
    rw [← hst2]; split <;> rfl
  generalize hr : os_write env st2 st2.logfd Site.data (ptr.take (runLen ptr)) = r
  have h1 := os_write_snd env st2 st2.logfd Site.data (ptr.take (runLen ptr))
  rw [hr] at h1
  refine ⟨Event.write st2.logfd Site.data (ptr.take (runLen ptr)) r.1, r.2, by
    simp [Event.lwSite], by rw [h1, advance_trace, htr], ?_⟩
  by_cases hret : r.1 = (runLen ptr : Int)
  · left
    refine ⟨by simp [Event.cleanWrite, hret, hrun], ?_⟩
    simp [hr, hret]
  · right
    refine ⟨by simp [Event.failedWrite, hret, hrun], ?_⟩
    simp [hr, hret]

theorem loop_iter_general (env : Env) (ptr : List Char) (st : State) :
    ∃ pre w mid, (∀ e ∈ pre, e.cleanWrite = true) ∧ w.lwSite = true
      ∧ mid.trace = st.trace ++ pre ++ [w] ∧
      ((w.cleanWrite = true ∧ loop_iter env ptr st = Sum.inr mid)
        ∨ (w.failedWrite = true
            ∧ loop_iter env ptr st = Sum.inl (logfile_reopen env mid writeError))) := by
  unfold loop_iter
  cases hpt : st.print_timestamp
  · obtain ⟨w, mid, hw1, hw2, hw3⟩ := loop_tail_general env ptr st
    exact ⟨[], w, mid, by simp, hw1, by simpa using hw2, by simpa using hw3⟩
  · obtain ⟨tevs, hadv, hkind, hT, hF⟩ := timestamp_general env st
    cases hok : (logfile_write_timestamp env st).1
    · obtain ⟨pre, w, hsplit, hpre, hw⟩ := hF hok
      have hwmem : w ∈ tevs := by rw [hsplit]; simp
      refine ⟨pre, w, (logfile_write_timestamp env st).2, ?_, tsWrite_lwSite w (hkind w hwmem),
        ?_, Or.inr ⟨hw, ?_⟩⟩
      · intro e he
        exact clean_of_ts e (hkind e (by rw [hsplit]; simp [he])) (hpre e he)
      · rw [hadv, advance_trace, hsplit, List.append_assoc]
      · simp [hok]
    · obtain ⟨w, mid, hw1, hw2, hw3⟩ := loop_tail_general env ptr
        { (logfile_write_timestamp env st).2 with print_timestamp := false }
      refine ⟨tevs, w, mid, ?_, hw1, ?_, ?_⟩
      · intro e he
        exact clean_of_ts e (hkind e he) (hT hok e he)
      · rw [hw2]
        show (logfile_write_timestamp env st).2.trace ++ [w] = _
        rw [hadv, advance_trace]
      · simpa [hok] using hw3

/-- Outcome of the `logfile_write` loop under arbitrary write results, given
enough fuel: it returns; either every write it issued succeeded, or the writes
before the first failed one succeeded and the rest of the call is one
`logfile_reopen("Write error")` from the state right after the failed write. -/
theorem loop_general (env : Env) :
    ∀ (fuel : Nat) (ptr : List Char) (st : State), strlen ptr < fuel →
      ∃ st', logfile_write_loop env fuel ptr st = some st' ∧
        ((∃ evs, st'.trace = st.trace ++ evs ∧ ∀ e ∈ evs, e.cleanWrite = true)
          ∨ (∃ pre w mid, (∀ e ∈ pre, e.cleanWrite = true) ∧ w.failedWrite = true
              ∧ w.lwSite = true ∧ mid.trace = st.trace ++ pre ++ [w]
              ∧ st' = logfile_reopen env mid writeError)) := by
  intro fuel
  induction fuel with
  | zero => intro ptr st hlt; exact absurd hlt (Nat.not_lt_zero _)
  | succ fuel ih =>
    intro ptr st hlt
    rw [loop_unfold]
    by_cases hne : deref ptr = NUL
    · rw [if_pos hne]
      exact ⟨st, rfl, Or.inl ⟨[], by simp, by simp⟩⟩
    · rw [if_neg hne]
      have hdrop := strlen_drop_run ptr hne
      obtain ⟨pre, w, mid, hpre, hsite, hmid, hcase⟩ := loop_iter_general env ptr st
      rcases hcase with ⟨hclean, hiter⟩ | ⟨hfail, hiter⟩
      · rw [hiter]
        obtain ⟨st', hrun, hout⟩ := ih (ptr.drop (runLen ptr)) mid (by omega)
        refine ⟨st', hrun, ?_⟩
        rcases hout with ⟨evs, htr, hevs⟩ | ⟨pre2, w2, mid2, hpre2, hfail2, hsite2, hmid2, hst'⟩
        · left
          refine ⟨pre ++ [w] ++ evs, by rw [htr, hmid]; simp, ?_⟩
          intro e he
          simp only [List.mem_append, List.mem_singleton] at he
          rcases he with (he | he) | he
          · exact hpre e he
          · rw [he]; exact hclean
          · exact hevs e he
        · right
          refine ⟨pre ++ [w] ++ pre2, w2, mid2, ?_, hfail2, hsite2, by
            rw [hmid2, hmid]; simp, hst'⟩
          intro e he
          simp only [List.mem_append, List.mem_singleton] at he
          rcases he with (he | he) | he
          · exact hpre e he
          · rw [he]; exact hclean
          · exact hpre2 e he
      · rw [hiter]
        exact ⟨_, rfl, Or.inr ⟨pre, w, mid, hpre, hfail, hsite, hmid, rfl⟩⟩

theorem first_failure_unique :
    ∀ (pre pre2 : List Event) (w w2 : Event) (post post2 : List Event),
      pre ++ w :: post = pre2 ++ w2 :: post2 →
      (∀ e ∈ pre, e.failedWrite = false) → w.failedWrite = true →
      (∀ e ∈ pre2, e.failedWrite = false) → w2.failedWrite = true →
      pre = pre2 ∧ w = w2 ∧ post = post2 := by
  intro pre
  induction pre with
  | nil =>
    intro pre2 w w2 post post2 heq _ hw hpre2 _
    cases pre2 with
    | nil =>
      simp only [List.nil_append, List.cons.injEq] at heq
      exact ⟨rfl, heq.1, heq.2⟩
    | cons e es =>
      simp only [List.nil_append, List.cons_append, List.cons.injEq] at heq
      have := hpre2 e (by simp)
      rw [← heq.1, hw] at this
      exact absurd this (by simp)
  | cons a as ih =>
    intro pre2 w w2 post post2 heq hpre hw hpre2 hw2
    cases pre2 with
    | nil =>
      simp only [List.nil_append, List.cons_append, List.cons.injEq] at heq
      have := hpre a (by simp)
      rw [heq.1, hw2] at this
      exact absurd this (by simp)
    | cons e es =>
      simp only [List.cons_append, List.cons.injEq] at heq
      obtain ⟨h1, h2, h3⟩ := ih es w w2 post post2 heq.2
        (fun x hx => hpre x (by simp [hx])) hw (fun x hx => hpre2 x (by simp [hx])) hw2
      exact ⟨by rw [heq.1, h1], h2, h3⟩

/-! ## Opening and reopening the log -/

/-- Function `logfile_open` spelled out: the old descriptor is closed first, then the
file is opened and `logfd` takes the result, `-1` included. -/
theorem logfile_open_spec (env : Env) (st : State) :
    ∃ (res : Option Nat) (perr : List Event),
      (logfile_open env st).2 = st.opened res perr
      ∧ (∀ e ∈ perr, e.isOpen = false ∧ e.isClose = false ∧ e.isWrite = false)
      ∧ (logfile_open env st).1 = res.isSome
      ∧ (res = none ∨ res = some st.nextFd)
      ∧ (st.logfile_name ≠ none → env.openOk (st.clock + st.logfd.toList.length) = true →
          res = some st.nextFd ∧ perr = []) := by
  unfold State.opened
  obtain ⟨nm, lf, pt, fmt, sw, qr, fds, nfd, clk, tr⟩ := st
  unfold logfile_open os_close os_open
  cases lf <;> cases nm
  · exact ⟨none, [Event.perror ("open(\"" ++ "" ++ "\")")], by simp,
      by simp [Event.isOpen, Event.isClose, Event.isWrite], by simp, by simp, by simp⟩
  · rename_i name
    cases hok : env.openOk clk
    · exact ⟨none, [Event.perror ("open(\"" ++ name ++ "\")")], by simp [hok],
        by simp [Event.isOpen, Event.isClose, Event.isWrite], by simp [hok], by simp,
        by simp [hok]⟩
    · exact ⟨some nfd, [], by simp [hok], by simp, by simp [hok], by simp, by simp⟩
  · exact ⟨none, [Event.perror ("open(\"" ++ "" ++ "\")")], by simp,
      by simp [Event.isOpen, Event.isClose, Event.isWrite], by simp, by simp, by simp⟩
  · rename_i h name
    cases hok : env.openOk (clk + 1)
    · exact ⟨none, [Event.perror ("open(\"" ++ name ++ "\")")], by simp [hok],
        by simp [Event.isOpen, Event.isClose, Event.isWrite], by simp [hok], by simp,
        by simp [hok]⟩
    · exact ⟨some nfd, [], by simp [hok], by simp, by simp [hok], by simp, by simp⟩

theorem tsWrite_aside (e : Event) (h : e.tsWrite = true) : e.aside = true := by
  cases e <;> simp_all [Event.tsWrite, Event.aside, Event.isOpen, Event.isClose, Event.fromSite]
  rcases h with h | h <;> simp [h]

theorem os_write_marker (env : Env) (st : State) (fd : Option Nat) (bytes : List Char) :
    ∃ w, (os_write env st fd Site.marker bytes).2 = st.advance [w] ∧ w.aside = true :=
  ⟨_, os_write_snd env st fd Site.marker bytes, by
    simp [Event.aside, Event.isOpen, Event.isClose, Event.fromSite]⟩

/-- Shape of `logfile_reopen` under arbitrary results: writes, then the close of
the old descriptor (if any) directly followed by the one `open`, then writes
and possibly a `perror`; `logfd` is the result of that `open`. -/
theorem reopen_shape (env : Env) (st : State) (reason : List Char) :
    ∃ (A B : List Event) (res : Option Nat),
      (logfile_reopen env st reason).trace
          = st.trace ++ (A ++ (st.logfd.toList.map Event.close
              ++ [Event.openFile st.logfile_name res]) ++ B)
      ∧ (∀ e ∈ A, e.aside = true) ∧ (∀ e ∈ B, e.aside = true)
      ∧ (logfile_reopen env st reason).logfd = res
      ∧ (logfile_reopen env st reason).openFds
          = (match st.logfd with
              | some h => st.openFds.erase h
              | none => st.openFds) ++ res.toList
      ∧ (res = none ∨ res = some st.nextFd)
      ∧ (logfile_reopen env st reason).print_timestamp = st.print_timestamp
      ∧ (logfile_reopen env st reason).tstamp_format = st.tstamp_format
      ∧ (logfile_reopen env st reason).logfile_name = st.logfile_name
      ∧ (logfile_reopen env st reason).quit_requested = st.quit_requested
      ∧ (logfile_reopen env st reason).stdin_watch = st.stdin_watch := by
  unfold logfile_reopen
  obtain ⟨t1, ht1, hk1, -, -⟩ := timestamp_general env st
  simp only [ht1]
  obtain ⟨w1, hw1, hw1k⟩ := os_write_marker env (st.advance t1) (st.advance t1).logfd
    (cstr reason ++ ". Reopening logfile\n".toList)
  simp only [hw1]
  obtain ⟨res, perr, hop, hperr, -, hres, -⟩ :=
    logfile_open_spec env ((st.advance t1).advance [w1])
  simp only [hop]
  obtain ⟨t2, ht2, hk2, -, -⟩ := timestamp_general env
    (((st.advance t1).advance [w1]).opened res perr)
  simp only [ht2]
  obtain ⟨w2, hw2, hw2k⟩ := os_write_marker env
    ((((st.advance t1).advance [w1]).opened res perr).advance t2)
    ((((st.advance t1).advance [w1]).opened res perr).advance t2).logfd
    (cstr reason ++ ". Logfile reopened\n".toList)
  simp only [hw2]
  refine ⟨t1 ++ [w1], perr ++ t2 ++ [w2], res, ?_, ?_, ?_, rfl, rfl, hres, rfl, rfl, rfl, rfl,
    rfl⟩
  · simp [State.advance, State.opened]
  · intro e he
    simp only [List.mem_append, List.mem_singleton] at he
    rcases he with he | he
    · exact tsWrite_aside e (hk1 e he)
    · rw [he]; exact hw1k
  · intro e he
    simp only [List.mem_append, List.mem_singleton] at he
    rcases he with (he | he) | he
    · have := hperr e he
      simp [Event.aside, this.1, this.2.1]
      cases e <;> simp_all [Event.isWrite, Event.fromSite]
    · exact tsWrite_aside e (hk2 e he)
    · rw [he]; exact hw2k

/-! ## Whole calls that succeed -/

theorem sameSink_trans {a b c : State} (h1 : SameSink a b) (h2 : SameSink b c) :
    SameSink a c := by
  obtain ⟨a1, a2, a3, a4, a5, a6, a7⟩ := h1
  obtain ⟨b1, b2, b3, b4, b5, b6, b7⟩ := h2
  exact ⟨b1.trans a1, b2.trans a2, b3.trans a3, b4.trans a4, b5.trans a5, b6.trans a6,
    b7.trans a7⟩

theorem logfile_write_ok (env : Env) (hw : WritesSucceed env) (h : Nat) (buf : List Char)
    (st : State) (hfd : st.logfd = some h) (hopen : h ∈ st.openFds) :
    ∃ st' evs, logfile_write env st buf = some st'
      ∧ SameSink st st'
      ∧ st'.trace = st.trace ++ evs
      ∧ (∀ e ∈ evs, e.okWriteOn h = true)
      ∧ st'.print_timestamp = flagAfter st.print_timestamp (cstr buf)
      ∧ payloadBytes h evs = cstr buf
      ∧ (∀ pfx, (∀ t, tsPrefixAt env st.tstamp_format t = pfx) →
          fileBytes h evs = stampLines pfx st.print_timestamp (cstr buf)) := by
  unfold logfile_write
  rw [hfd]
  exact loop_ok env hw h (strlen buf + 1) buf st hfd hopen (Nat.lt_succ_self _)

theorem chunks_ok (env : Env) (hw : WritesSucceed env) (h : Nat) :
    ∀ (chunks : List (List Char)) (st : State), st.logfd = some h → h ∈ st.openFds →
      ∃ st' evs, write_chunks env chunks st = some st'
        ∧ SameSink st st'
        ∧ st'.trace = st.trace ++ evs
        ∧ (∀ e ∈ evs, e.okWriteOn h = true)
        ∧ st'.print_timestamp = flagAfter st.print_timestamp (chunks.map cstr).flatten
        ∧ payloadBytes h evs = (chunks.map cstr).flatten
        ∧ (∀ pfx, (∀ t, tsPrefixAt env st.tstamp_format t = pfx) →
            fileBytes h evs = stampLines pfx st.print_timestamp (chunks.map cstr).flatten) := by
  intro chunks
  induction chunks with
  | nil =>
    intro st _ _
    exact ⟨st, [], rfl, ⟨rfl, rfl, rfl, rfl, rfl, rfl, rfl⟩, by simp, by simp, rfl, rfl,
      fun _ _ => rfl⟩
  | cons c cs ih =>
    intro st hfd hopen
    obtain ⟨s1, e1, hrun1, hsame1, htr1, hok1, hflag1, hpay1, hfile1⟩ :=
      logfile_write_ok env hw h c st hfd hopen
    obtain ⟨s2, e2, hrun2, hsame2, htr2, hok2, hflag2, hpay2, hfile2⟩ :=
      ih s1 (hsame1.2.1.trans hfd) (by rw [hsame1.2.2.2.2.2.1]; exact hopen)
    refine ⟨s2, e1 ++ e2, ?_, sameSink_trans hsame1 hsame2, ?_, ?_, ?_, ?_, ?_⟩
    · simp only [write_chunks, hrun1, hrun2]
    · rw [htr2, htr1, List.append_assoc]
    · intro e he
      rcases List.mem_append.mp he with he | he
      · exact hok1 e he
      · exact hok2 e he
    · rw [hflag2, hflag1, List.map_cons, List.flatten_cons, flagAfter_append]
    · rw [payloadBytes_append, hpay1, hpay2, List.map_cons, List.flatten_cons]
    · intro pfx hpfx
      have hpfx1 : ∀ t, tsPrefixAt env s1.tstamp_format t = pfx := by
        rw [hsame1.2.2.1]; exact hpfx
      rw [fileBytes_append, hfile1 pfx hpfx, hfile2 pfx hpfx1, hflag1, List.map_cons,
        List.flatten_cons, stampLines_append]

theorem stdout_handler_eq_chunks (env : Env) :
    ∀ (reads : List (List Char)) (st : State), (∀ c ∈ reads, c ≠ []) →
      stdout_handler env reads st = write_chunks env reads st := by
  intro reads
  induction reads with
  | nil => intro st _; rfl
  | cons c cs ih =>
    intro st hne
    have hc : 0 < c.length := List.length_pos.mpr (hne c (by simp))
    simp only [stdout_handler, write_chunks, if_pos hc]
    cases logfile_write env st c with
    | none => rfl
    | some s1 => exact ih s1 (fun x hx => hne x (by simp [hx]))

theorem map_cstr_of_nulFree (chunks : List (List Char)) (h : ∀ c ∈ chunks, NulFree c) :
    chunks.map cstr = chunks := by
  induction chunks with
  | nil => rfl
  | cons c cs ih =>
    rw [List.map_cons, cstr_of_nulFree c (h c (by simp)),
      ih (fun x hx => h x (by simp [hx]))]

theorem nulFree_flatten (chunks : List (List Char)) (h : ∀ c ∈ chunks, NulFree c) :
    NulFree chunks.flatten := by
  intro x hx
  obtain ⟨c, hc, hxc⟩ := List.mem_flatten.mp hx
  exact h c hc x hxc

theorem tsPrefixAt_of_fixed (env : Env) (fmt ts : List Char) (hfmt : fmt ≠ [])
    (hts : ∀ t, tstampToken env fmt t = ts) (t : Nat) :
    tsPrefixAt env fmt t = ts ++ [':', ' '] := by
  unfold tsPrefixAt
  have : fmt.isEmpty = false := by
    cases fmt with
    | nil => exact absurd rfl hfmt
    | cons _ _ => rfl
  simp [this, hts t]

theorem tsPrefixAt_of_empty (env : Env) (fmt : List Char) (hfmt : fmt = []) (t : Nat) :
    tsPrefixAt env fmt t = [] := by
  simp [tsPrefixAt, hfmt]

theorem okEnv_writes (ts : List Char) : WritesSucceed (okEnv ts) := fun _ _ => rfl

/-! ## C1: the payload survives the sink -/

/-- C1 (counterexample): a chunk read from the capture pipe that holds a NUL byte
is cut at that byte. With every write succeeding and the log open on handle 3,
`stdout_handler` on the single read `a NUL b` leaves only `a` in the log once
time stamps and separators are removed: the byte `b` is dropped. -/
theorem stdout_handler_drops_after_nul :
    WritesSucceed (okEnv "T".toList) ∧ openState.logfd = some 3 ∧ 3 ∈ openState.openFds
      ∧ (stdout_handler (okEnv "T".toList) [['a', NUL, 'b']] openState).map
          (fun s => payloadBytes 3 s.trace) = some ['a']
      ∧ ['a'] ≠ ['a', NUL, 'b'] :=
  ⟨okEnv_writes _, rfl, by decide, by decide, by decide⟩

/-- C1 (amended): with the log open on `h` and every write succeeding in full,
a NUL-free byte sequence passed to `logfile_write`, and a sequence of non-empty
NUL-free chunks read from the pipe and forwarded by `stdout_handler`, are
written completely: the call returns, issues only successful writes on `h`,
and the bytes written with time stamp tokens and separators removed are exactly
the original bytes in the original order. -/
theorem sink_preserves_nulfree_payload (env : Env) (hw : WritesSucceed env) (st : State)
    (h : Nat) (hfd : st.logfd = some h) (hopen : h ∈ st.openFds)
    (buf : List Char) (hbuf : NulFree buf)
    (reads : List (List Char)) (hreads : ∀ c ∈ reads, c ≠ [] ∧ NulFree c) :
    (∃ st' evs, logfile_write env st buf = some st' ∧ st'.trace = st.trace ++ evs
        ∧ (∀ e ∈ evs, e.okWriteOn h = true) ∧ payloadBytes h evs = buf)
      ∧ (∃ st' evs, stdout_handler env reads st = some st' ∧ st'.trace = st.trace ++ evs
        ∧ (∀ e ∈ evs, e.okWriteOn h = true) ∧ payloadBytes h evs = reads.flatten) := by
  constructor
  · obtain ⟨st', evs, hrun, _, htr, hok, _, hpay, _⟩ :=
      logfile_write_ok env hw h buf st hfd hopen
    exact ⟨st', evs, hrun, htr, hok, by rw [hpay, cstr_of_nulFree buf hbuf]⟩
  · obtain ⟨st', evs, hrun, _, htr, hok, _, hpay, _⟩ := chunks_ok env hw h reads st hfd hopen
    refine ⟨st', evs, ?_, htr, hok, ?_⟩
    · rw [stdout_handler_eq_chunks env reads st (fun c hc => (hreads c hc).1)]
      exact hrun
    · rw [hpay, map_cstr_of_nulFree reads (fun c hc => (hreads c hc).2)]

/-- C1 (witness): the amended statement at the payload `"abc\ndef"` and the pipe
reads `"ab"`, `"c\nd"`, with the log open on handle 3. -/
theorem sink_preserves_nulfree_payload_witness :
    (∃ st' evs, logfile_write (okEnv "T".toList) openState "abc\ndef".toList = some st'
        ∧ st'.trace = openState.trace ++ evs
        ∧ (∀ e ∈ evs, e.okWriteOn 3 = true) ∧ payloadBytes 3 evs = "abc\ndef".toList)
      ∧ (∃ st' evs, stdout_handler (okEnv "T".toList) ["ab".toList, "c\nd".toList] openState
          = some st'
        ∧ st'.trace = openState.trace ++ evs
        ∧ (∀ e ∈ evs, e.okWriteOn 3 = true)
        ∧ payloadBytes 3 evs = ["ab".toList, "c\nd".toList].flatten) :=
  sink_preserves_nulfree_payload (okEnv "T".toList) (okEnv_writes _) openState 3 rfl
    (by decide) "abc\ndef".toList (by decide) ["ab".toList, "c\nd".toList] (by decide)

/-! ## C2: chunking does not change the log -/

/-- C2 (counterexample): with NUL bytes the log depends on the chunking. The
pipe bytes `a NUL b` read as the chunks `a NUL` and `b` put `"T: ab"` in the
log, while one `logfile_write` of the whole payload (and one read of all three
bytes) puts `"T: a"` there. And a call with the empty string, which does not
end in a line terminator, leaves a set new-line flag set. -/
theorem chunking_changes_log_with_nul :
    WritesSucceed (okEnv "T".toList) ∧ openState.logfd = some 3 ∧ 3 ∈ openState.openFds
      ∧ openState.tstamp_format ≠ [] ∧ openState.print_timestamp = true
      ∧ [['a', NUL], ['b']].flatten = ['a', NUL, 'b']
      ∧ (stdout_handler (okEnv "T".toList) [['a', NUL], ['b']] openState).map
          (fun s => fileBytes 3 s.trace) = some "T: ab".toList
      ∧ (logfile_write (okEnv "T".toList) openState ['a', NUL, 'b']).map
          (fun s => fileBytes 3 s.trace) = some "T: a".toList
      ∧ (stdout_handler (okEnv "T".toList) [['a', NUL, 'b']] openState).map
          (fun s => fileBytes 3 s.trace) = some "T: a".toList
      ∧ (logfile_write (okEnv "T".toList) openState []).map (fun s => s.print_timestamp)
          = some true :=
  ⟨okEnv_writes _, rfl, by decide, by decide, rfl, by decide, by decide, by decide, by decide,
    by decide⟩

/-- C2 (amended): with the log open on `h`, a non-empty format, a fixed token `ts`
and every write succeeding, passing the NUL-free chunks of a payload to
`logfile_write` one after another (which is what `stdout_handler` does with
non-empty reads) and passing the whole payload in one call both return and
append the same bytes to the log, namely the payload with `ts` and `": "` in
front of every logical line; both leave the same new-line flag, which for a
non-empty payload is set exactly when its last byte is a line terminator. -/
theorem chunking_preserves_log (env : Env) (hw : WritesSucceed env) (st : State)
    (h : Nat) (hfd : st.logfd = some h) (hopen : h ∈ st.openFds)
    (hfmt : st.tstamp_format ≠ []) (ts : List Char)
    (hts : ∀ t, tstampToken env st.tstamp_format t = ts)
    (chunks : List (List Char)) (hnul : ∀ c ∈ chunks, NulFree c) :
    ∃ s1 s2 e1 e2, write_chunks env chunks st = some s1
      ∧ logfile_write env st chunks.flatten = some s2
      ∧ ((∀ c ∈ chunks, c ≠ []) → stdout_handler env chunks st = some s1)
      ∧ s1.trace = st.trace ++ e1 ∧ s2.trace = st.trace ++ e2
      ∧ (∀ e ∈ e1 ++ e2, e.okWriteOn h = true)
      ∧ fileBytes h e1 = fileBytes h e2
      ∧ fileBytes h e2 = stampLines (ts ++ [':', ' ']) st.print_timestamp chunks.flatten
      ∧ s1.print_timestamp = s2.print_timestamp
      ∧ (∀ b, chunks.flatten.getLast? = some b → s2.print_timestamp = (b == NL)) := by
  have hpfx := tsPrefixAt_of_fixed env st.tstamp_format ts hfmt hts
  obtain ⟨s1, e1, hrun1, _, htr1, hok1, hflag1, _, hfile1⟩ :=
    chunks_ok env hw h chunks st hfd hopen
  obtain ⟨s2, e2, hrun2, _, htr2, hok2, hflag2, _, hfile2⟩ :=
    logfile_write_ok env hw h chunks.flatten st hfd hopen
  rw [map_cstr_of_nulFree chunks hnul] at hflag1
  have hf1 := hfile1 _ hpfx
  rw [map_cstr_of_nulFree chunks hnul] at hf1
  rw [cstr_of_nulFree _ (nulFree_flatten chunks hnul)] at hflag2
  have hf2 := hfile2 _ hpfx
  rw [cstr_of_nulFree _ (nulFree_flatten chunks hnul)] at hf2
  refine ⟨s1, s2, e1, e2, hrun1, hrun2, ?_, htr1, htr2, ?_, by rw [hf1, hf2], hf2,
    by rw [hflag1, hflag2], ?_⟩
  · intro hne
    rw [stdout_handler_eq_chunks env chunks st hne]
    exact hrun1
  · intro e he
    rcases List.mem_append.mp he with he | he
    · exact hok1 e he
    · exact hok2 e he
  · intro b hb
    rw [hflag2]
    exact flagAfter_of_getLast _ _ b hb

/-- C2 (witness of the amended statement): draining `"abc\ndef"`, read from the pipe as `"ab"`, `"c\nd"`,
`"ef"`, from a fresh state yields `"<ts>: abc\n<ts>: def"`, the same as one
call with the whole payload, and leaves the new-line flag false. -/
theorem chunking_preserves_log_witness :
    ∃ s1 s2 e1 e2,
      stdout_handler (okEnv "<ts>".toList) ["ab".toList, "c\nd".toList, "ef".toList] openState
        = some s1
      ∧ logfile_write (okEnv "<ts>".toList) openState "abc\ndef".toList = some s2
      ∧ s1.trace = openState.trace ++ e1 ∧ s2.trace = openState.trace ++ e2
      ∧ fileBytes 3 e1 = "<ts>: abc\n<ts>: def".toList
      ∧ fileBytes 3 e2 = "<ts>: abc\n<ts>: def".toList
      ∧ s1.print_timestamp = false ∧ s2.print_timestamp = false := by
  obtain ⟨s1, s2, e1, e2, _, hrun2, hrun1, htr1, htr2, _, hsame, hfile, hflag, hlast⟩ :=
    chunking_preserves_log (okEnv "<ts>".toList) (okEnv_writes _) openState 3 rfl
      (by decide) (by decide) "<ts>".toList (fun _ => rfl)
      ["ab".toList, "c\nd".toList, "ef".toList] (by decide)
  have hfile2 : fileBytes 3 e2 = "<ts>: abc\n<ts>: def".toList := by
    rw [hfile]; decide
  have hflag2 : s2.print_timestamp = false := by
    rw [hlast 'f' (by decide)]; decide
  exact ⟨s1, s2, e1, e2, hrun1 (by decide), hrun2, htr1, htr2, by rw [hsame, hfile2], hfile2,
    by rw [hflag, hflag2], hflag2⟩

/-! ## C4: a failed write reopens the log once and ends the call -/

theorem reopen_events (env : Env) (mid : State) (reason : List Char) :
    ∃ R, (logfile_reopen env mid reason).trace = mid.trace ++ R
      ∧ (R.filter Event.isOpen).length = 1
      ∧ (∀ e ∈ R, e.fromSite Site.data = false) := by
  obtain ⟨A, B, res, htr, hA, hB, -⟩ := reopen_shape env mid reason
  have hfilter : ∀ L : List Event, (∀ e ∈ L, e.aside = true) → L.filter Event.isOpen = [] := by
    intro L hL
    rw [List.filter_eq_nil_iff]
    intro e he
    have := hL e he
    simp only [Event.aside, Bool.and_eq_true, Bool.not_eq_eq_eq_not, Bool.not_true] at this
    simp [this.1.1]
  have hclose : ∀ L : List Nat, (L.map Event.close).filter Event.isOpen = [] := by
    intro L
    rw [List.filter_eq_nil_iff]
    intro e he
    obtain ⟨x, _, rfl⟩ := List.mem_map.mp he
    simp [Event.isOpen]
  refine ⟨_, htr, ?_, ?_⟩
  · simp [List.filter_append, hfilter A hA, hfilter B hB, hclose, Event.isOpen]
  · intro e he
    simp only [List.mem_append, List.mem_map, List.mem_singleton] at he
    have haside : ∀ x : Event, x.aside = true → x.fromSite Site.data = false := by
      intro x hx
      simp only [Event.aside, Bool.and_eq_true, Bool.not_eq_eq_eq_not, Bool.not_true] at hx
      exact hx.2
    rcases he with (he | ⟨x, _, rfl⟩ | rfl) | he
    · exact haside e (hA e he)
    · rfl
    · rfl
    · exact haside e (hB e he)

/-- C4: `logfile_write` with a log file open always returns, and whenever one of
the writes of the call fails or is short, the writes before the first such
write `w` all succeeded in full, `w` is a time stamp, separator or data write of
`logfile_write` itself, and what follows `w` is exactly one
`logfile_reopen("Write error")` run from the state right after `w`: the final
state is the result of that reopen, the events after `w` contain exactly one
`open` and no write of buffer bytes. The function returns the state only, so
the caller sees no error. -/
theorem write_failure_reopens_once (env : Env) (st : State) (buf : List Char) (h : Nat)
    (hfd : st.logfd = some h) :
    ∃ st', logfile_write env st buf = some st' ∧
      ∀ pre w post, st'.trace = st.trace ++ (pre ++ w :: post) →
        (∀ e ∈ pre, e.failedWrite = false) → w.failedWrite = true →
        ∃ mid, mid.trace = st.trace ++ (pre ++ [w])
          ∧ st' = logfile_reopen env mid writeError
          ∧ w.lwSite = true ∧ (∀ e ∈ pre, e.cleanWrite = true)
          ∧ (post.filter Event.isOpen).length = 1
          ∧ (∀ e ∈ post, e.fromSite Site.data = false) := by
  unfold logfile_write
  rw [hfd]
  obtain ⟨st', hrun, hout⟩ := loop_general env (strlen buf + 1) buf st (Nat.lt_succ_self _)
  refine ⟨st', hrun, ?_⟩
  intro pre w post htr hpre hw
  rcases hout with ⟨evs, hevs, hclean⟩ | ⟨pre2, w2, mid, hpre2, hfail2, hsite2, hmid, hst'⟩
  · rw [hevs] at htr
    have hmem : w ∈ evs := by
      rw [List.append_cancel_left htr]; simp
    have := cleanWrite_not_failed w (hclean w hmem)
    rw [hw] at this
    exact absurd this (by simp)
  · obtain ⟨R, hR, hopen, hdata⟩ := reopen_events env mid writeError
    rw [hst', hR, hmid] at htr
    have heq : pre2 ++ w2 :: R = pre ++ w :: post := by
      have := List.append_cancel_left (by simpa [List.append_assoc] using htr :
        st.trace ++ (pre2 ++ w2 :: R) = st.trace ++ (pre ++ w :: post))
      exact this
    obtain ⟨h1, h2, h3⟩ := first_failure_unique pre2 pre w2 w R post heq
      (fun e he => cleanWrite_not_failed e (hpre2 e he)) hfail2 hpre hw
    subst h1 h2 h3
    exact ⟨mid, by rw [hmid, List.append_assoc], hst', hsite2, hpre2, hopen, hdata⟩

/-- C4 (witness): the log is open on handle 3 and the second write of the call,
the separator after the first time stamp, fails. The call ends with one reopen
from the state after that write; no byte of the buffer `"hi\n"` is written. -/
theorem write_failure_reopens_once_witness :
    openState.logfd = some 3 ∧
    ∃ st' mid, logfile_write (failAt 1) openState "hi\n".toList = some st'
      ∧ mid.trace = openState.trace ++ ([Event.write (some 3) Site.tstamp ['T'] 1]
          ++ [Event.write (some 3) Site.sep [':', ' '] (-1)])
      ∧ st' = logfile_reopen (failAt 1) mid writeError
      ∧ siteBytes 3 Site.data st'.trace = [] := by
  refine ⟨rfl, ?_⟩
  obtain ⟨st', hrun, himp⟩ :=
    write_failure_reopens_once (failAt 1) openState "hi\n".toList 3 rfl
  have htrace : (logfile_write (failAt 1) openState "hi\n".toList).map (fun s => s.trace)
      = some ([] ++ ([Event.write (some 3) Site.tstamp ['T'] 1]
          ++ Event.write (some 3) Site.sep [':', ' '] (-1) ::
            [Event.write (some 3) Site.tstamp ['T'] 1,
             Event.write (some 3) Site.sep [':', ' '] 2,
             Event.write (some 3) Site.marker "Write error. Reopening logfile\n".toList 31,
             Event.close 3,
             Event.openFile (some "/var/log/remotetrx") (some 4),
             Event.write (some 4) Site.tstamp ['T'] 1,
             Event.write (some 4) Site.sep [':', ' '] 2,
             Event.write (some 4) Site.marker "Write error. Logfile reopened\n".toList 30])) := by
    decide
  rw [hrun] at htrace
  simp only [Option.map_some', Option.some.injEq] at htrace
  obtain ⟨mid, hmid, hst', -⟩ := himp _ _ _ htrace (by decide) (by decide)
  refine ⟨st', mid, hrun, hmid, hst', ?_⟩
  rw [htrace]
  decide

/-! ## C10: an empty format passes writes through -/

/-- C10: with an empty time stamp format `logfile_write_timestamp` writes nothing
and reports success; hence with the log open on `h` and every write succeeding,
`logfile_write` of a NUL-free buffer, whatever the new-line flag, returns and
appends to the log exactly the bytes of the buffer. -/
theorem empty_format_passthrough (env : Env) (hw : WritesSucceed env) (st : State)
    (h : Nat) (hfd : st.logfd = some h) (hopen : h ∈ st.openFds)
    (hfmt : st.tstamp_format = []) (buf : List Char) (hbuf : NulFree buf) :
    logfile_write_timestamp env st = (true, st)
      ∧ ∃ st' evs, logfile_write env st buf = some st' ∧ st'.trace = st.trace ++ evs
          ∧ (∀ e ∈ evs, e.okWriteOn h = true)
          ∧ fileBytes h evs = buf
          ∧ fileBytes h st'.trace = fileBytes h st.trace ++ buf := by
  constructor
  · simp [logfile_write_timestamp, hfmt]
  · obtain ⟨st', evs, hrun, _, htr, hok, _, _, hfile⟩ :=
      logfile_write_ok env hw h buf st hfd hopen
    have hf := hfile [] (tsPrefixAt_of_empty env st.tstamp_format hfmt)
    rw [stampLines_nil_pfx, cstr_of_nulFree buf hbuf] at hf
    exact ⟨st', evs, hrun, htr, hok, hf, by rw [htr, fileBytes_append, hf]⟩

/-- C10 (witness): empty format, log open on handle 3, flag set, buffer
`"abc\ndef"`. -/
theorem empty_format_passthrough_witness :
    logfile_write_timestamp (okEnv "T".toList) { openState with tstamp_format := [] }
        = (true, { openState with tstamp_format := [] })
      ∧ ∃ st' evs, logfile_write (okEnv "T".toList) { openState with tstamp_format := [] }
            "abc\ndef".toList = some st'
          ∧ st'.trace = ({ openState with tstamp_format := [] } : State).trace ++ evs
          ∧ (∀ e ∈ evs, e.okWriteOn 3 = true)
          ∧ fileBytes 3 evs = "abc\ndef".toList
          ∧ fileBytes 3 st'.trace
              = fileBytes 3 ({ openState with tstamp_format := [] } : State).trace
                ++ "abc\ndef".toList :=
  empty_format_passthrough (okEnv "T".toList) (okEnv_writes _)
    { openState with tstamp_format := [] } 3 rfl (by decide) rfl "abc\ndef".toList (by decide)

/-! ## C9: a reopen that succeeds -/

@[simp]
theorem advance_nextFd (st : State) (evs : List Event) :
    (st.advance evs).nextFd = st.nextFd := rfl
@[simp]
theorem advance_name (st : State) (evs : List Event) :
    (st.advance evs).logfile_name = st.logfile_name := rfl

theorem fileBytes_other (h h2 : Nat) (hne : h2 ≠ h) (evs : List Event)
    (hok : ∀ e ∈ evs, e.okWriteOn h = true) : fileBytes h2 evs = [] := by
  induction evs with
  | nil => rfl
  | cons e es ih =>
    have he := hok e (by simp)
    have hes := ih (fun x hx => hok x (by simp [hx]))
    cases e with
    | write fd site req ret =>
      simp only [Event.okWriteOn, decide_eq_true_eq] at he
      have : fd ≠ some h2 := by rw [he.1]; simpa using hne.symm
      simp [fileBytes, this, hes]
    | _ => simp [Event.okWriteOn] at he

theorem fileBytes_tsEvents_other (env : Env) (st : State) (h h2 : Nat) (hne : h2 ≠ h) :
    fileBytes h2 (tsEvents env st h) = [] :=
  fileBytes_other h h2 hne _ (tsEvents_ok env st h)

/-- The state `logfile_reopen` reaches when every write and the `open` succeed. -/
theorem reopen_ok (env : Env) (hw : WritesSucceed env) (hopenOk : ∀ t, env.openOk t = true)
    (st : State) (old : Nat) (name : String) (reason : List Char)
    (hfd : st.logfd = some old) (hfds : st.openFds = [old])
    (hname : st.logfile_name = some name) :
    ∃ mid : State, mid.tstamp_format = st.tstamp_format
      ∧ logfile_reopen env st reason
        = (mid.advance (tsEvents env mid st.nextFd)).advance
            [Event.write (some st.nextFd) Site.marker
              (cstr reason ++ ". Logfile reopened\n".toList)
              (cstr reason ++ ". Logfile reopened\n".toList).length]
      ∧ mid.trace = st.trace ++ (tsEvents env st old
          ++ [Event.write (some old) Site.marker (cstr reason ++ ". Reopening logfile\n".toList)
                (cstr reason ++ ". Reopening logfile\n".toList).length,
              Event.close old, Event.openFile (some name) (some st.nextFd)])
      ∧ mid.logfd = some st.nextFd ∧ mid.openFds = [st.nextFd]
      ∧ mid.print_timestamp = st.print_timestamp := by
  have hopen : old ∈ st.openFds := by rw [hfds]; simp
  have e1 := timestamp_ok env hw st old hfd hopen
  have e2 := os_write_ok env hw (st.advance (tsEvents env st old)) old hopen Site.marker
    (cstr reason ++ ". Reopening logfile\n".toList)
  obtain ⟨res, perr, e3, -, -, -, hres⟩ := logfile_open_spec env
    ((st.advance (tsEvents env st old)).advance
      [Event.write (some old) Site.marker (cstr reason ++ ". Reopening logfile\n".toList)
        (cstr reason ++ ". Reopening logfile\n".toList).length])
  obtain ⟨hres1, hperr⟩ := hres (by simp [hname]) (hopenOk _)
  simp only [advance_nextFd] at hres1
  subst hres1 hperr
  let mid : State := ((st.advance (tsEvents env st old)).advance
      [Event.write (some old) Site.marker (cstr reason ++ ". Reopening logfile\n".toList)
        (cstr reason ++ ". Reopening logfile\n".toList).length]).opened (some st.nextFd) []
  have hmfd : mid.logfd = some st.nextFd := rfl
  have hmfds : mid.openFds = [st.nextFd] := by
    simp [mid, State.opened, hfd, hfds]
  have hmopen : st.nextFd ∈ mid.openFds := by rw [hmfds]; simp
  have e4 := timestamp_ok env hw mid st.nextFd hmfd hmopen
  have e5 := os_write_ok env hw (mid.advance (tsEvents env mid st.nextFd)) st.nextFd hmopen
    Site.marker (cstr reason ++ ". Logfile reopened\n".toList)
  refine ⟨mid, rfl, ?_, ?_, hmfd, hmfds, rfl⟩
  · unfold logfile_reopen
    simp only [e1, advance_logfd, hfd, e2, e3]
    show (os_write env (logfile_write_timestamp env mid).2
      (logfile_write_timestamp env mid).2.logfd Site.marker _).2 = _
    rw [e4, advance_logfd, hmfd, e5]
  · simp [mid, State.opened, hfd, hname]

/-- C9 (counterexample): with an empty time stamp format the two marker lines
carry no `"<ts>: "` in front. The log is open on handle 3, every call
succeeds; the old file receives `"SIGHUP received. Reopening logfile\n"`, the
new one `"SIGHUP received. Logfile reopened\n"`, and no time stamp or separator
is written at all. -/
theorem reopen_markers_unstamped_without_format :
    WritesSucceed (okEnv "<ts>".toList)
      ∧ ({ openState with tstamp_format := [] } : State).logfd = some 3
      ∧ fileBytes 3 (logfile_reopen (okEnv "<ts>".toList)
          { openState with tstamp_format := [] } "SIGHUP received".toList).trace
          = "SIGHUP received. Reopening logfile\n".toList
      ∧ fileBytes 4 (logfile_reopen (okEnv "<ts>".toList)
          { openState with tstamp_format := [] } "SIGHUP received".toList).trace
          = "SIGHUP received. Logfile reopened\n".toList
      ∧ (logfile_reopen (okEnv "<ts>".toList)
          { openState with tstamp_format := [] } "SIGHUP received".toList).trace.filter
            Event.tsWrite = [] :=
  ⟨okEnv_writes _, rfl, by decide, by decide, by decide⟩

/-- C9 (amended): `logfile_reopen(reason)` with the log open on `old`, the `open`
and every write succeeding. The calls it makes are exactly: the time stamp and
the line `"<reason>. Reopening logfile\n"` written through `old`, `close(old)`,
the `open` returning the new handle, the time stamp and the line
`"<reason>. Logfile reopened\n"` written through the new handle. So the old
file receives the first marker line and nothing else, the new file the second
and nothing else, each behind the prefix `logfile_write_timestamp` emits: token
and `": "` for a non-empty format, nothing for an empty one. Afterwards `logfd`
is the new handle, the only one open, and a `logfile_write` of any buffer
returns and writes every byte of its string through the new handle and none
through the old one. -/
theorem reopen_writes_two_markers (env : Env) (hw : WritesSucceed env)
    (hopenOk : ∀ t, env.openOk t = true) (st : State) (old : Nat) (name : String)
    (reason buf : List Char)
    (hfd : st.logfd = some old) (hfds : st.openFds = [old])
    (hname : st.logfile_name = some name) (hfresh : old ≠ st.nextFd) :
    ∃ (mid : State) (evs : List Event),
      (logfile_reopen env st reason).trace = st.trace ++ evs
      ∧ mid.tstamp_format = st.tstamp_format
      ∧ evs = tsEvents env st old
          ++ [Event.write (some old) Site.marker (cstr reason ++ ". Reopening logfile\n".toList)
                (cstr reason ++ ". Reopening logfile\n".toList).length,
              Event.close old, Event.openFile (some name) (some st.nextFd)]
          ++ tsEvents env mid st.nextFd
          ++ [Event.write (some st.nextFd) Site.marker
                (cstr reason ++ ". Logfile reopened\n".toList)
                (cstr reason ++ ". Logfile reopened\n".toList).length]
      ∧ fileBytes old evs = tsPrefixAt env st.tstamp_format st.clock
          ++ (cstr reason ++ ". Reopening logfile\n".toList)
      ∧ fileBytes st.nextFd evs = tsPrefixAt env st.tstamp_format mid.clock
          ++ (cstr reason ++ ". Logfile reopened\n".toList)
      ∧ (logfile_reopen env st reason).logfd = some st.nextFd
      ∧ (logfile_reopen env st reason).openFds = [st.nextFd]
      ∧ (logfile_reopen env st reason).print_timestamp = st.print_timestamp
      ∧ ∃ st2 evs2, logfile_write env (logfile_reopen env st reason) buf = some st2
          ∧ st2.trace = (logfile_reopen env st reason).trace ++ evs2
          ∧ (∀ e ∈ evs2, e.okWriteOn st.nextFd = true)
          ∧ payloadBytes st.nextFd evs2 = cstr buf
          ∧ fileBytes old evs2 = [] := by
  obtain ⟨mid, hmfmt, hre, hmtr, hmfd, hmfds, hmflag⟩ :=
    reopen_ok env hw hopenOk st old name reason hfd hfds hname
  have hlogfd : (logfile_reopen env st reason).logfd = some st.nextFd := by
    rw [hre]; exact hmfd
  have hfds2 : (logfile_reopen env st reason).openFds = [st.nextFd] := by
    rw [hre]; exact hmfds
  obtain ⟨st2, evs2, hrun2, _, htr2, hok2, _, hpay2, _⟩ :=
    logfile_write_ok env hw st.nextFd buf (logfile_reopen env st reason) hlogfd
      (by rw [hfds2]; simp)
  refine ⟨mid, _, ?_, hmfmt, rfl, ?_, ?_, hlogfd, hfds2, ?_, st2, evs2, hrun2, htr2, hok2,
    hpay2, fileBytes_other st.nextFd old hfresh evs2 hok2⟩
  · rw [hre]
    simp [hmtr, List.append_assoc]
  · generalize cstr reason ++ ". Reopening logfile\n".toList = m1
    generalize cstr reason ++ ". Logfile reopened\n".toList = m2
    simp [fileBytes_append, tsEvents_file, fileBytes_tsEvents_other env mid st.nextFd old hfresh,
      fileBytes, written_full, Ne.symm hfresh]
  · generalize cstr reason ++ ". Reopening logfile\n".toList = m1
    generalize cstr reason ++ ". Logfile reopened\n".toList = m2
    simp [fileBytes_append, tsEvents_file, fileBytes_tsEvents_other env st old st.nextFd
      (Ne.symm hfresh), fileBytes, written_full, hfresh, hmfmt]
  · rw [hre]; exact hmflag

/-- C9 (witness of the amended statement): `SIGHUP received` with the log open on handle 3 and the token
`<ts>`: one marker line in the old file, one in the new file on handle 4, and a
later `"abc\n"` goes to the new file. -/
theorem reopen_writes_two_markers_witness :
    ∃ evs, (logfile_reopen (okEnv "<ts>".toList) openState "SIGHUP received".toList).trace
        = openState.trace ++ evs
      ∧ fileBytes 3 evs = "<ts>: SIGHUP received. Reopening logfile\n".toList
      ∧ fileBytes 4 evs = "<ts>: SIGHUP received. Logfile reopened\n".toList
      ∧ (logfile_reopen (okEnv "<ts>".toList) openState "SIGHUP received".toList).logfd = some 4
      ∧ ∃ st2 evs2,
          logfile_write (okEnv "<ts>".toList)
            (logfile_reopen (okEnv "<ts>".toList) openState "SIGHUP received".toList)
            "abc\n".toList = some st2
          ∧ st2.trace
            = (logfile_reopen (okEnv "<ts>".toList) openState "SIGHUP received".toList).trace
              ++ evs2
          ∧ payloadBytes 4 evs2 = "abc\n".toList ∧ fileBytes 3 evs2 = [] := by
  obtain ⟨mid, evs, htr, _, _, hf1, hf2, hfd, _, _, st2, evs2, hrun, htr2, _, hpay, hold⟩ :=
    reopen_writes_two_markers (okEnv "<ts>".toList) (okEnv_writes _) (fun _ => rfl) openState 3
      "/var/log/remotetrx" "SIGHUP received".toList "abc\n".toList rfl rfl rfl (by decide)
  exact ⟨evs, htr, hf1, hf2, hfd, st2, evs2, hrun, htr2, hpay, hold⟩

/-! ## C3: reopening closes first -/

theorem applyFd_neutral (fds : List Nat) (e : Event)
    (h : e.isOpen = false ∧ e.isClose = false) : applyFd fds e = fds := by
  cases e <;> simp_all [applyFd, Event.isOpen, Event.isClose]

theorem replayFds_append (fds : List Nat) (a b : List Event) :
    replayFds fds (a ++ b) = replayFds (replayFds fds a) b := by
  simp [replayFds, List.foldl_append]

theorem replayFds_neutral (fds : List Nat) (a : List Event)
    (h : ∀ e ∈ a, e.isOpen = false ∧ e.isClose = false) : replayFds fds a = fds := by
  induction a with
  | nil => rfl
  | cons e es ih =>
    have he := applyFd_neutral fds e (h e (by simp))
    have hes := ih (fun x hx => h x (by simp [hx]))
    simp only [replayFds, List.foldl_cons] at hes ⊢
    rw [he, hes]

theorem atMost_neutral (fds : List Nat) (a : List Event)
    (h : ∀ e ∈ a, e.isOpen = false ∧ e.isClose = false) (hfds : fds.length ≤ 1) :
    AtMostOneOpen fds a := by
  intro n
  rw [replayFds_neutral fds (a.take n) (fun e he => h e (List.mem_of_mem_take he))]
  exact hfds

theorem atMost_append (fds : List Nat) (a b : List Event) (ha : AtMostOneOpen fds a)
    (hb : AtMostOneOpen (replayFds fds a) b) : AtMostOneOpen fds (a ++ b) := by
  intro n
  rw [List.take_append_eq_append_take, replayFds_append]
  by_cases hn : n ≤ a.length
  · have : n - a.length = 0 := by omega
    rw [this, List.take_zero]
    exact ha n
  · have : a.take n = a := List.take_of_length_le (by omega)
    rw [this]
    exact hb (n - a.length)

theorem aside_neutral (e : Event) (h : e.aside = true) :
    e.isOpen = false ∧ e.isClose = false := by
  simp only [Event.aside, Bool.and_eq_true, Bool.not_eq_eq_eq_not, Bool.not_true] at h
  exact ⟨h.1.1, h.1.2⟩

theorem atMost_close_open (lf : Option Nat) (name : Option String) (res : Option Nat) :
    AtMostOneOpen lf.toList (lf.toList.map Event.close ++ [Event.openFile name res])
      ∧ replayFds lf.toList (lf.toList.map Event.close ++ [Event.openFile name res])
          = res.toList := by
  cases lf with
  | none =>
    refine ⟨?_, by simp [replayFds, applyFd]⟩
    intro n
    rcases n with _ | n
    · simp [replayFds]
    · cases res <;> simp [replayFds, applyFd]
  | some h =>
    refine ⟨?_, by simp [replayFds, applyFd]⟩
    intro n
    rcases n with _ | _ | n
    · simp [replayFds]
    · simp [replayFds, applyFd]
    · cases res <;> simp [replayFds, applyFd]

/-- C3 (counterexample): with the log open on handle 3 and an `open` that fails,
`logfile_reopen` does not leave the old handle in place: handle 3 has been
closed, `logfd` is `-1`, no log handle is open, and a later `logfile_write`
goes to `cout` instead of the file. Also when the `open` succeeds the old
handle is closed before the new one is opened. -/
theorem reopen_failure_drops_old_handle :
    openState.logfd = some 3 ∧ 3 ∈ openState.openFds
      ∧ (logfile_reopen noOpenEnv openState "SIGHUP received".toList).logfd = none
      ∧ 3 ∉ (logfile_reopen noOpenEnv openState "SIGHUP received".toList).openFds
      ∧ Event.close 3 ∈ (logfile_reopen noOpenEnv openState "SIGHUP received".toList).trace
      ∧ (logfile_write noOpenEnv
            (logfile_reopen noOpenEnv openState "SIGHUP received".toList) "x\n".toList).map
          (fun s => s.trace.getLast?) = some (some (Event.cout "x\n".toList))
      ∧ ((logfile_reopen (okEnv "T".toList) openState "SIGHUP received".toList).trace.filter
          (fun e => e.isOpen || e.isClose))
          = [Event.close 3, Event.openFile (some "/var/log/remotetrx") (some 4)] := by
  refine ⟨rfl, by decide, by decide, by decide, by decide, by decide, by decide⟩

/-- C3 (amended): `logfile_reopen` (through `logfile_open`) closes the previous
handle first and opens the file directly afterwards; these are its only `close`
and `open` calls. `logfd` becomes the result of the `open`: the new handle, or
`-1` when the `open` fails, in which case no log handle is open any more and
later `logfile_write` calls go to `cout`. If `logfd` held the only open log
handle before, at most one log handle is open at every point of the call and
afterwards `logfd` again holds the only one. -/
theorem reopen_closes_before_opening (env : Env) (st : State) (reason : List Char)
    (hinv : st.openFds = st.logfd.toList) :
    ∃ (A B : List Event) (res : Option Nat) (evs : List Event),
      (logfile_reopen env st reason).trace = st.trace ++ evs
      ∧ evs = A ++ (st.logfd.toList.map Event.close
          ++ [Event.openFile st.logfile_name res]) ++ B
      ∧ (∀ e ∈ A ++ B, e.isOpen = false ∧ e.isClose = false)
      ∧ (logfile_reopen env st reason).logfd = res
      ∧ (logfile_reopen env st reason).openFds = res.toList
      ∧ AtMostOneOpen st.openFds evs
      ∧ replayFds st.openFds evs = (logfile_reopen env st reason).openFds
      ∧ ((res = none ∧ ∀ buf, logfile_write env (logfile_reopen env st reason) buf
            = some { logfile_reopen env st reason with
                trace := (logfile_reopen env st reason).trace ++ [Event.cout (cstr buf)] })
          ∨ res = some st.nextFd) := by
  obtain ⟨A, B, res, htr, hA, hB, hfd, hfds, hres, -⟩ := reopen_shape env st reason
  have hfds2 : (logfile_reopen env st reason).openFds = res.toList := by
    rw [hfds, hinv]
    cases st.logfd <;> simp
  have hAn : ∀ e ∈ A, e.isOpen = false ∧ e.isClose = false :=
    fun e he => aside_neutral e (hA e he)
  have hBn : ∀ e ∈ B, e.isOpen = false ∧ e.isClose = false :=
    fun e he => aside_neutral e (hB e he)
  have hlen : st.openFds.length ≤ 1 := by
    rw [hinv]; cases st.logfd <;> simp
  obtain ⟨hmid1, hmid2⟩ := atMost_close_open st.logfd st.logfile_name res
  refine ⟨A, B, res, _, htr, rfl, ?_, hfd, hfds2, ?_, ?_, ?_⟩
  · intro e he
    rcases List.mem_append.mp he with he | he
    · exact hAn e he
    · exact hBn e he
  · apply atMost_append
    · apply atMost_append
      · exact atMost_neutral _ _ hAn hlen
      · rw [replayFds_neutral _ _ hAn, hinv]; exact hmid1
    · rw [replayFds_append, replayFds_neutral _ _ hAn, hinv, hmid2]
      exact atMost_neutral _ _ hBn (by cases res <;> simp)
  · rw [replayFds_append, replayFds_append, replayFds_neutral _ _ hAn, hinv, hmid2,
      replayFds_neutral _ _ hBn, hfds2]
  · rcases hres with hnone | hsome
    · left
      refine ⟨hnone, ?_⟩
      intro buf
      have hfd0 : (logfile_reopen env st reason).logfd = none := by rw [hfd, hnone]
      generalize logfile_reopen env st reason = s1 at hfd0 ⊢
      unfold logfile_write
      simp [hfd0]
    · right; exact hsome

/-- C3 (witness): the amended statement with the log open on handle 3 and an
`open` that fails. -/
theorem reopen_closes_before_opening_witness :
    openState.openFds = openState.logfd.toList ∧
    ∃ (A B : List Event) (res : Option Nat) (evs : List Event),
      (logfile_reopen noOpenEnv openState writeError).trace = openState.trace ++ evs
      ∧ evs = A ++ (openState.logfd.toList.map Event.close
          ++ [Event.openFile openState.logfile_name res]) ++ B
      ∧ (∀ e ∈ A ++ B, e.isOpen = false ∧ e.isClose = false)
      ∧ (logfile_reopen noOpenEnv openState writeError).logfd = res
      ∧ (logfile_reopen noOpenEnv openState writeError).openFds = res.toList
      ∧ AtMostOneOpen openState.openFds evs
      ∧ replayFds openState.openFds evs = (logfile_reopen noOpenEnv openState writeError).openFds
      ∧ ((res = none ∧ ∀ buf, logfile_write noOpenEnv
              (logfile_reopen noOpenEnv openState writeError) buf
            = some { logfile_reopen noOpenEnv openState writeError with
                trace := (logfile_reopen noOpenEnv openState writeError).trace
                  ++ [Event.cout (cstr buf)] })
          ∨ res = some openState.nextFd) :=
  ⟨rfl, reopen_closes_before_opening noOpenEnv openState writeError rfl⟩

/-! ## C5: exit status without units -/

/-- C5 (the code at the failing input): when no unit initialises (two units that
both fail, or an empty `GLOBAL/TRXS`), `main` prints its error, does not call
`app.exec()`, and returns 0, not 1. -/
theorem main_returns_zero_without_units :
    (main_trx (fun _ => false) ["Rx1", "Tx1"] false).exit_status = 0
      ∧ Event.exec ∉ (main_trx (fun _ => false) ["Rx1", "Tx1"] false).trace
      ∧ Event.cerr "*** ERROR: No trxs successfully initialized. Bailing out...\n".toList
          ∈ (main_trx (fun _ => false) ["Rx1", "Tx1"] false).trace
      ∧ main_trx (fun _ => true) [] false
          = { trace := [Event.cerr
                "*** ERROR: No trxs successfully initialized. Bailing out...\n".toList],
              exit_status := 0 } := by
  refine ⟨rfl, by decide, by decide, by decide⟩

/-! ## C6: configuration discovery -/

/-- C6: configuration discovery for every outcome of the open attempts. With
`--config` only that path is tried, and its failure ends the process with
status 1. Without it the three default candidates are tried in order up to
and including the first that opens, which becomes the primary configuration
file; if none opens the process ends with status 1 after an error text that
lists the three candidates, tab-indented one per line, in the order tried. -/
theorem config_search_order (config : Option String) (home_dir svxDir sysDir : String)
    (cfg_open : String → Bool) (errno_text : Option String) :
    main_config config home_dir svxDir sysDir cfg_open errno_text
        = (match config with
          | some c =>
            { tried := [c]
              cerr := if cfg_open c then ""
                else "*** ERROR: Could not open configuration file: " ++ c ++ "\n"
              result := if cfg_open c then StartupResult.proceed c
                else StartupResult.exited 1 }
          | none =>
            { tried := (configCandidates home_dir svxDir sysDir).takeWhile
                  (fun p => !cfg_open p)
                ++ ((configCandidates home_dir svxDir sysDir).find? cfg_open).toList
              cerr := if ((configCandidates home_dir svxDir sysDir).find? cfg_open).isSome
                then "" else configErrorText home_dir svxDir sysDir errno_text
              result := match (configCandidates home_dir svxDir sysDir).find? cfg_open with
                | some p => StartupResult.proceed p
                | none => StartupResult.exited 1 })
      ∧ ∃ pre post, configErrorText home_dir svxDir sysDir errno_text
          = pre ++ "Tried the following paths:\n"
            ++ String.join ((configCandidates home_dir svxDir sysDir).map
                (fun p => "\t" ++ p ++ "\n"))
            ++ post := by
  constructor
  · cases config with
    | some c =>
      cases hc : cfg_open c <;> simp [main_config, hc]
    | none =>
      cases h1 : cfg_open (home_dir ++ "/.svxlink/remotetrx.conf") <;>
      cases h2 : cfg_open (svxDir ++ "/remotetrx.conf") <;>
      cases h3 : cfg_open (sysDir ++ "/remotetrx.conf") <;>
      simp [main_config, configCandidates, List.takeWhile, List.find?, h1, h2, h3]
  · refine ⟨"*** ERROR: Could not open configuration file"
      ++ (match errno_text with
          | some e => " (" ++ e ++ ")"
          | none => "") ++ ".\n",
      "Possible reasons for failure are: None of the files exist,\n"
        ++ "you do not have permission to read the file or there was a\n"
        ++ "syntax error in the file.\n", ?_⟩
    have e1 : "/.svxlink/remotetrx.conf\n" = "/.svxlink/remotetrx.conf" ++ "\n" := by decide
    have e2 : "/remotetrx.conf\n" = "/remotetrx.conf" ++ "\n" := by decide
    simp only [configErrorText, configCandidates, List.map, String.join, List.foldl, e1, e2,
      String.append_assoc, String.empty_append, String.append_empty]

/-! ## C7: SIGHUP without a log file -/

/-- C7 (counterexample): without a log file name, SIGHUP is not silent: the
handler writes the line `"Ignoring SIGHUP\n"` on standard output. -/
theorem sighup_without_logfile_prints :
    (State.initial none).logfile_name = none ∧ (State.initial none).trace = []
      ∧ (handle_unix_signal (okEnv []) (State.initial none) SIGHUP).map (fun s => s.trace)
          = some [Event.cout "Ignoring SIGHUP\n".toList] := by
  refine ⟨rfl, rfl, by decide⟩

/-- C7 (amended): SIGHUP delivered through `handle_unix_signal` while
`logfile_name` is null returns to the event loop with one effect only: the line
`"Ignoring SIGHUP\n"` on standard output. No reopen marker is written, no file is
opened, closed or written, and `logfd`, the new-line flag, the set of open
handles and the termination request are unchanged. -/
theorem sighup_without_logfile (env : Env) (st : State) (hname : st.logfile_name = none) :
    handle_unix_signal env st SIGHUP
        = some { st with trace := st.trace ++ [Event.cout "Ignoring SIGHUP\n".toList] }
      ∧ ∃ st', handle_unix_signal env st SIGHUP = some st'
          ∧ st'.logfd = st.logfd ∧ st'.print_timestamp = st.print_timestamp
          ∧ st'.quit_requested = st.quit_requested ∧ st'.openFds = st.openFds
          ∧ st'.clock = st.clock
          ∧ st'.trace.filter (fun e => e.isWrite || e.isOpen || e.isClose)
              = st.trace.filter (fun e => e.isWrite || e.isOpen || e.isClose) := by
  have h : handle_unix_signal env st SIGHUP
      = some { st with trace := st.trace ++ [Event.cout "Ignoring SIGHUP\n".toList] } := by
    simp [handle_unix_signal, sighup_handler, hname]
  refine ⟨h, _, h, rfl, rfl, rfl, rfl, rfl, ?_⟩
  simp [List.filter_append, Event.isWrite, Event.isOpen, Event.isClose]

/-- C7 (witness): the amended statement at the initial state without a log
file. -/
theorem sighup_without_logfile_witness :
    (State.initial none).logfile_name = none
      ∧ handle_unix_signal (okEnv []) (State.initial none) SIGHUP
        = some { State.initial none with
            trace := (State.initial none).trace ++ [Event.cout "Ignoring SIGHUP\n".toList] } :=
  ⟨rfl, (sighup_without_logfile (okEnv []) (State.initial none) rfl).1⟩

/-! ## C8: termination requests -/

theorem logfile_write_total (env : Env) (st : State) (buf : List Char) :
    ∃ st', logfile_write env st buf = some st' := by
  unfold logfile_write
  cases st.logfd with
  | none => exact ⟨_, rfl⟩
  | some h =>
    obtain ⟨st', hrun, -⟩ := loop_general env (strlen buf + 1) buf st (Nat.lt_succ_self _)
    exact ⟨st', hrun⟩

/-- C8 (counterexample): end-of-file on stdin does not request termination. The
one-byte read returning 0 only removes the stdin watch; `quit()` is not called. -/
theorem stdin_eof_does_not_quit :
    ({ State.initial none with stdin_watch := true } : State).quit_requested = false
      ∧ (stdinHandler { State.initial none with stdin_watch := true } StdinRead.eof).quit_requested
          = false
      ∧ Event.quit ∉
          (stdinHandler { State.initial none with stdin_watch := true } StdinRead.eof).trace
      ∧ (stdinHandler { State.initial none with stdin_watch := true } StdinRead.eof).stdin_watch
          = false := by
  refine ⟨rfl, rfl, by decide, rfl⟩

/-- C8 (amended): a delivered SIGINT or SIGTERM, the quit key `q` or `Q`, and a
failed read on stdin each return to the event loop with a termination request
(`Application::quit`) as their last action; end-of-file on stdin only removes
the stdin watch and requests nothing. None of the handlers ends the process:
each returns a state. -/
theorem termination_requests (env : Env) (st : State) :
    (∃ st', handle_unix_signal env st SIGINT = some st' ∧ st'.quit_requested = true
        ∧ st'.trace.getLast? = some Event.quit)
      ∧ (∃ st', handle_unix_signal env st SIGTERM = some st' ∧ st'.quit_requested = true
        ∧ st'.trace.getLast? = some Event.quit)
      ∧ stdinHandler st (StdinRead.byte 'q') = app_quit st
      ∧ stdinHandler st (StdinRead.byte 'Q') = app_quit st
      ∧ (stdinHandler st StdinRead.error).quit_requested = true
      ∧ (stdinHandler st StdinRead.error).trace.getLast? = some Event.quit
      ∧ (app_quit st).quit_requested = true
      ∧ stdinHandler st StdinRead.eof = { st with stdin_watch := false } := by
  refine ⟨?_, ?_, ?_, ?_, rfl, ?_, rfl, rfl⟩
  · obtain ⟨s1, h1⟩ := logfile_write_total env st
      ("\n" ++ "SIGINT" ++ " received. Shutting down application...\n").toList
    refine ⟨app_quit s1, ?_, rfl, by simp [app_quit]⟩
    have hsig : (SIGINT = SIGHUP) = False := by decide
    have hsig2 : (SIGINT = SIGTERM) = False := by decide
    simp only [handle_unix_signal, sigterm_handler, hsig, hsig2, if_false, true_or, if_true]
    rw [h1]
  · obtain ⟨s1, h1⟩ := logfile_write_total env st
      ("\n" ++ "SIGTERM" ++ " received. Shutting down application...\n").toList
    refine ⟨app_quit s1, ?_, rfl, by simp [app_quit]⟩
    have hsig : (SIGTERM = SIGHUP) = False := by decide
    simp only [handle_unix_signal, sigterm_handler, hsig, if_false, or_true, if_true]
    rw [h1]
  · simp [stdinHandler]
  · simp [stdinHandler]
  · simp [stdinHandler, app_quit]

/-! ## C12: termination and the number of data writes -/

theorem run_count (p : List Char) :
    (p.take (runLen p)).count NL = if (strchr p NL).isSome then 1 else 0 := by
  induction p with
  | nil => simp [runLen_of_deref_nul [] rfl, strchr_of_deref_nul [] rfl]
  | cons c cs ih =>
    by_cases hc : c = NUL
    · have h0 : runLen (c :: cs) = 0 := runLen_of_deref_nul _ hc
      have h1 : strchr (c :: cs) NL = none := strchr_of_deref_nul _ hc
      simp [h0, h1]
    · rw [runLen_cons c cs hc, strchr_isSome_cons c cs hc]
      by_cases hn : c = NL
      · simp [hn]
      · have hn2 : ¬ (NL = c) := fun h => hn h.symm
        simp only [if_neg hn, List.take_succ_cons]
        rw [List.count_cons_of_ne hn2, ih]

theorem cstr_drop_of_no_nl (p : List Char) (h : strchr p NL = none) :
    cstr (p.drop (runLen p)) = [] := by
  have h1 := (run_split p).1
  have h2 := (run_split p).2.1
  have hl : runLen p = strlen p := by simp [runLen, h]
  have : (cstr p).length = (p.take (runLen p)).length + (cstr (p.drop (runLen p))).length := by
    conv_lhs => rw [h1]
    rw [List.length_append]
  have hs : strlen p = (cstr p).length := rfl
  exact List.length_eq_zero.mp (by omega)

theorem lineBound_step (p : List Char) (h : deref p ≠ NUL) :
    lineBound (cstr p) = lineBound (cstr (p.drop (runLen p))) + 1 := by
  have h1 := (run_split p).1
  have hfl := (stamp_run [] true p h).2
  have hcnt := run_count p
  unfold lineBound
  rw [hfl]
  conv_lhs => rw [h1]
  rw [List.count_append, hcnt]
  cases hs : strchr p NL with
  | none =>
    rw [cstr_drop_of_no_nl p hs]
    simp [flagAfter]
  | some nl =>
    simp only [Option.isSome_some, if_true]
    omega

theorem lineBound_le (c : List Char) : lineBound c ≤ c.count NL + 1 := by
  unfold lineBound
  split <;> omega

theorem dataWrites_append (a b : List Event) :
    dataWrites (a ++ b) = dataWrites a + dataWrites b := by
  simp [dataWrites, List.filter_append]

theorem dataWrites_of_none (a : List Event) (h : ∀ e ∈ a, e.fromSite Site.data = false) :
    dataWrites a = 0 := by
  unfold dataWrites
  rw [List.length_eq_zero, List.filter_eq_nil_iff]
  intro e he
  simp [h e he]

theorem logfile_open_trace (env : Env) (st : State) :
    ∃ oevs, (logfile_open env st).2.trace = st.trace ++ oevs
      ∧ ∀ e ∈ oevs, e.fromSite Site.data = false ∧ e.isCout = false := by
  obtain ⟨nm, lf, pt, fmt, sw, qr, fds, nfd, clk, tr⟩ := st
  unfold logfile_open os_close os_open
  cases lf <;> cases nm
  · exact ⟨_, by simp; rfl, by simp [Event.fromSite, Event.isCout]⟩
  · cases hok : env.openOk clk
    · exact ⟨_, by simp [hok]; rfl, by simp [Event.fromSite, Event.isCout]⟩
    · exact ⟨_, by simp [hok]; rfl, by simp [Event.fromSite, Event.isCout]⟩
  · exact ⟨_, by simp; rfl, by simp [Event.fromSite, Event.isCout]⟩
  · rename_i h name
    cases hok : env.openOk (clk + 1)
    · exact ⟨_, by simp [hok]; rfl, by simp [Event.fromSite, Event.isCout]⟩
    · exact ⟨_, by simp [hok]; rfl, by simp [Event.fromSite, Event.isCout]⟩

theorem tsWrite_not_cout (e : Event) (h : e.tsWrite = true) : e.isCout = false := by
  cases e <;> simp_all [Event.tsWrite, Event.isCout]

/-- The events of `logfile_reopen` under arbitrary results hold no write of
buffer bytes and no output on `cout`: nothing `logfile_write` would produce. -/
theorem reopen_kinds (env : Env) (s : State) (reason : List Char) :
    ∃ R, (logfile_reopen env s reason).trace = s.trace ++ R
      ∧ ∀ e ∈ R, e.fromSite Site.data = false ∧ e.isCout = false := by
  unfold logfile_reopen
  obtain ⟨t1, ht1, hk1, -, -⟩ := timestamp_general env s
  simp only [ht1]
  have hw1 := os_write_snd env (s.advance t1) (s.advance t1).logfd Site.marker
    (cstr reason ++ ". Reopening logfile\n".toList)
  generalize (os_write env (s.advance t1) (s.advance t1).logfd Site.marker
    (cstr reason ++ ". Reopening logfile\n".toList)) = r1 at hw1 ⊢
  obtain ⟨oevs, hop, hok⟩ := logfile_open_trace env r1.2
  obtain ⟨t2, ht2, hk2, -, -⟩ := timestamp_general env (logfile_open env r1.2).2
  simp only [ht2]
  have hw2 := os_write_snd env ((logfile_open env r1.2).2.advance t2)
    ((logfile_open env r1.2).2.advance t2).logfd Site.marker
    (cstr reason ++ ". Logfile reopened\n".toList)
  generalize (os_write env ((logfile_open env r1.2).2.advance t2)
    ((logfile_open env r1.2).2.advance t2).logfd Site.marker
    (cstr reason ++ ". Logfile reopened\n".toList)) = r2 at hw2 ⊢
  refine ⟨t1 ++ [Event.write (s.advance t1).logfd Site.marker
      (cstr reason ++ ". Reopening logfile\n".toList) r1.1] ++ oevs ++ t2
    ++ [Event.write ((logfile_open env r1.2).2.advance t2).logfd Site.marker
      (cstr reason ++ ". Logfile reopened\n".toList) r2.1], ?_, ?_⟩
  · rw [hw2, advance_trace, advance_trace, hop, hw1, advance_trace, advance_trace]
    simp [List.append_assoc]
  · intro e he
    simp only [List.mem_append, List.mem_singleton] at he
    rcases he with (((he | he) | he) | he) | he
    · exact ⟨tsWrite_not_data e (hk1 e he), tsWrite_not_cout e (hk1 e he)⟩
    · rw [he]; simp [Event.fromSite, Event.isCout]
    · exact hok e he
    · exact ⟨tsWrite_not_data e (hk2 e he), tsWrite_not_cout e (hk2 e he)⟩
    · rw [he]; simp [Event.fromSite, Event.isCout]

theorem reopen_dataWrites (env : Env) (s : State) (reason : List Char) :
    ∃ R, (logfile_reopen env s reason).trace = s.trace ++ R ∧ dataWrites R = 0 := by
  obtain ⟨R, hR, hk⟩ := reopen_kinds env s reason
  exact ⟨R, hR, dataWrites_of_none R (fun e he => (hk e he).1)⟩

theorem loop_tail_data (env : Env) (ptr : List Char) (s1 : State) :
    ∃ evs, (iterState (loop_tail env ptr s1)).trace = s1.trace ++ evs
      ∧ dataWrites evs = 1 := by
  unfold loop_tail
  generalize hst2 : (if (strchr ptr NL).isSome = true
    then { s1 with print_timestamp := true } else s1) = st2
  have htr : st2.trace = s1.trace := by
    rw [← hst2]; split <;> rfl
  have h1 := os_write_snd env st2 st2.logfd Site.data (ptr.take (runLen ptr))
  generalize hr : os_write env st2 st2.logfd Site.data (ptr.take (runLen ptr)) = r at h1
  have hone : dataWrites [Event.write st2.logfd Site.data (ptr.take (runLen ptr)) r.1] = 1 := by
    simp [dataWrites, Event.fromSite]
  by_cases hret : r.1 = (runLen ptr : Int)
  · refine ⟨_, ?_, hone⟩
    simp only [hr, hret, ne_eq, not_true_eq_false, if_false, iterState]
    rw [h1, advance_trace, htr, hret]
  · obtain ⟨R, hR, hR0⟩ := reopen_dataWrites env r.2 writeError
    refine ⟨[Event.write st2.logfd Site.data (ptr.take (runLen ptr)) r.1] ++ R, ?_, ?_⟩
    · simp only [hr, hret, ne_eq, not_false_eq_true, if_true, iterState]
      rw [hR, h1, advance_trace, htr, List.append_assoc]
    · rw [dataWrites_append, hone, hR0]

theorem loop_iter_data (env : Env) (ptr : List Char) (s : State) :
    ∃ evs, (iterState (loop_iter env ptr s)).trace = s.trace ++ evs
      ∧ dataWrites evs ≤ 1 := by
  unfold loop_iter
  cases hpt : s.print_timestamp
  · obtain ⟨evs, h1, h2⟩ := loop_tail_data env ptr s
    exact ⟨evs, by simpa using h1, by omega⟩
  · obtain ⟨tevs, hadv, hkind, -, -⟩ := timestamp_general env s
    have ht0 : dataWrites tevs = 0 :=
      dataWrites_of_none tevs (fun e he => tsWrite_not_data e (hkind e he))
    cases hok : (logfile_write_timestamp env s).1
    · obtain ⟨R, hR, hR0⟩ := reopen_dataWrites env (logfile_write_timestamp env s).2 writeError
      refine ⟨tevs ++ R, ?_, by rw [dataWrites_append, ht0, hR0]; omega⟩
      simp only [hok, if_true, Bool.not_false, iterState]
      rw [hR, hadv, advance_trace, List.append_assoc]
    · obtain ⟨evs, h1, h2⟩ := loop_tail_data env ptr
        { (logfile_write_timestamp env s).2 with print_timestamp := false }
      refine ⟨tevs ++ evs, ?_, by rw [dataWrites_append, ht0, h2]⟩
      simp only [hok, Bool.not_true, Bool.false_eq_true, if_false, if_true]
      rw [h1]
      show (logfile_write_timestamp env s).2.trace ++ evs = _
      rw [hadv, advance_trace, List.append_assoc]

/-- Under arbitrary write results the loop of `logfile_write`, given enough
fuel, returns after at most one data write per run of the string. -/
theorem loop_data (env : Env) :
    ∀ (fuel : Nat) (ptr : List Char) (s : State), strlen ptr < fuel →
      ∃ st' evs, logfile_write_loop env fuel ptr s = some st'
        ∧ st'.trace = s.trace ++ evs ∧ dataWrites evs ≤ lineBound (cstr ptr) := by
  intro fuel
  induction fuel with
  | zero => intro ptr s hlt; exact absurd hlt (Nat.not_lt_zero _)
  | succ fuel ih =>
    intro ptr s hlt
    rw [loop_unfold]
    by_cases hne : deref ptr = NUL
    · rw [if_pos hne]
      exact ⟨s, [], rfl, by simp, by simp [dataWrites]⟩
    · rw [if_neg hne]
      have hdrop := strlen_drop_run ptr hne
      have hbound := lineBound_step ptr hne
      obtain ⟨evs, htr, hle⟩ := loop_iter_data env ptr s
      cases hit : loop_iter env ptr s with
      | inl done =>
        rw [hit] at htr
        exact ⟨done, evs, rfl, htr, by omega⟩
      | inr s2 =>
        rw [hit] at htr
        obtain ⟨st', evs2, hrun, htr2, hle2⟩ := ih (ptr.drop (runLen ptr)) s2 (by omega)
        refine ⟨st', evs ++ evs2, hrun, ?_, ?_⟩
        · rw [htr2]
          show (iterState (Sum.inr s2)).trace ++ evs2 = _
          rw [htr, List.append_assoc]
        · rw [dataWrites_append]; omega

theorem loop_fuel_succ (env : Env) :
    ∀ (fuel : Nat) (ptr : List Char) (s r : State),
      logfile_write_loop env fuel ptr s = some r →
      logfile_write_loop env (fuel + 1) ptr s = some r := by
  intro fuel
  induction fuel with
  | zero => intro ptr s r h; simp [logfile_write_loop] at h
  | succ fuel ih =>
    intro ptr s r h
    rw [loop_unfold] at h ⊢
    by_cases hne : deref ptr = NUL
    · rw [if_pos hne] at h ⊢; exact h
    · rw [if_neg hne] at h ⊢
      cases hit : loop_iter env ptr s with
      | inl done => rw [hit] at h; exact h
      | inr s2 =>
        rw [hit] at h
        exact ih _ _ _ h

theorem loop_fuel_le (env : Env) (ptr : List Char) (s r : State) (fuel : Nat)
    (h : logfile_write_loop env fuel ptr s = some r) :
    ∀ k, logfile_write_loop env (fuel + k) ptr s = some r := by
  intro k
  induction k with
  | zero => exact h
  | succ k ih => exact loop_fuel_succ env (fuel + k) ptr s r ih

/-- C12: `logfile_write` terminates for every buffer and every behaviour of
`write`. The call returns, and the number of data writes among its events is
at most the number of line terminators in the string plus one. The loop needs
no more than `strlen(buf) + 1` passes: with any larger bound it returns the
same state. A pass at a pointer that is not at the terminator either returns
or goes on at a pointer advanced by the length of the run, which is at least
one byte and does not pass the terminator. The events of `logfile_reopen`
hold no data write and no output on `cout`, so it does not run `logfile_write`
again. -/
theorem logfile_write_terminates (env : Env) (st s : State) (buf ptr reason : List Char)
    (fuel : Nat) (hfuel : strlen buf < fuel) (hptr : deref ptr ≠ NUL) :
    (∃ st' evs, logfile_write env st buf = some st' ∧ st'.trace = st.trace ++ evs
        ∧ dataWrites evs ≤ (cstr buf).count NL + 1)
      ∧ (∃ r, logfile_write_loop env (strlen buf + 1) buf st = some r
          ∧ logfile_write_loop env fuel buf st = some r)
      ∧ (1 ≤ runLen ptr ∧ runLen ptr ≤ strlen ptr
          ∧ strlen (ptr.drop (runLen ptr)) + runLen ptr = strlen ptr)
      ∧ (∀ k, logfile_write_loop env (k + 1) ptr s
          = match loop_iter env ptr s with
            | Sum.inl done => some done
            | Sum.inr s2 => logfile_write_loop env k (ptr.drop (runLen ptr)) s2)
      ∧ (∃ R, (logfile_reopen env s reason).trace = s.trace ++ R
          ∧ ∀ e ∈ R, e.fromSite Site.data = false ∧ e.isCout = false) := by
  refine ⟨?_, ?_, ?_, ?_, reopen_kinds env s reason⟩
  · unfold logfile_write
    cases st.logfd with
    | none => exact ⟨_, [Event.cout (cstr buf)], rfl, rfl, by simp [dataWrites, Event.fromSite]⟩
    | some h =>
      obtain ⟨st', evs, hrun, htr, hle⟩ :=
        loop_data env (strlen buf + 1) buf st (Nat.lt_succ_self _)
      exact ⟨st', evs, hrun, htr, le_trans hle (lineBound_le _)⟩
  · obtain ⟨r, -, hrun, -⟩ := loop_data env (strlen buf + 1) buf st (Nat.lt_succ_self _)
    refine ⟨r, hrun, ?_⟩
    have := loop_fuel_le env buf st r (strlen buf + 1) hrun (fuel - (strlen buf + 1))
    have hf : strlen buf + 1 + (fuel - (strlen buf + 1)) = fuel := by omega
    rw [hf] at this
    exact this
  · have h1 := (run_split ptr).1
    have h2 := (run_split ptr).2.1
    have h3 := (run_split ptr).2.2
    have h4 := runLen_pos ptr hptr
    refine ⟨h4, h3, ?_⟩
    have : strlen ptr = runLen ptr + strlen (ptr.drop (runLen ptr)) := by
      unfold strlen
      conv_lhs => rw [h1]
      rw [List.length_append, h2]
    omega
  · intro k
    rw [loop_unfold, if_neg hptr]

/-- C12 (witness): the buffer `"a\nb"` with the log open on handle 3 and the
second `write` failing; bound 10 for the loop, one pass at the start of the
buffer. -/
theorem logfile_write_terminates_witness :
    strlen "a\nb".toList < 10 ∧ deref "a\nb".toList ≠ NUL
      ∧ (∃ st' evs, logfile_write (failAt 1) openState "a\nb".toList = some st'
          ∧ st'.trace = openState.trace ++ evs
          ∧ dataWrites evs ≤ (cstr "a\nb".toList).count NL + 1)
      ∧ (∃ r, logfile_write_loop (failAt 1) (strlen "a\nb".toList + 1) "a\nb".toList openState
            = some r
          ∧ logfile_write_loop (failAt 1) 10 "a\nb".toList openState = some r)
      ∧ (1 ≤ runLen "a\nb".toList ∧ runLen "a\nb".toList ≤ strlen "a\nb".toList
          ∧ strlen ("a\nb".toList.drop (runLen "a\nb".toList)) + runLen "a\nb".toList
              = strlen "a\nb".toList)
      ∧ (∀ k, logfile_write_loop (failAt 1) (k + 1) "a\nb".toList openState
          = match loop_iter (failAt 1) "a\nb".toList openState with
            | Sum.inl done => some done
            | Sum.inr s2 =>
              logfile_write_loop (failAt 1) k ("a\nb".toList.drop (runLen "a\nb".toList)) s2)
      ∧ (∃ R, (logfile_reopen (failAt 1) openState writeError).trace = openState.trace ++ R
          ∧ ∀ e ∈ R, e.fromSite Site.data = false ∧ e.isCout = false) :=
  ⟨by decide, by decide,
    logfile_write_terminates (failAt 1) openState openState "a\nb".toList "a\nb".toList
      writeError 10 (by decide) (by decide)⟩

/-! ## C11: where time stamps are placed -/

theorem atLineStart_snoc (s : List Char) (c : Char) : atLineStart (s ++ [c]) = (c == NL) := by
  simp [atLineStart]

theorem atLineStart_append (s x : List Char) :
    atLineStart (s ++ x) = flagAfter (atLineStart s) x := by
  induction x generalizing s with
  | nil => simp [flagAfter]
  | cons c cs ih =>
    have : s ++ c :: cs = (s ++ [c]) ++ cs := by simp
    rw [this, ih, atLineStart_snoc]
    rfl

theorem logBytes_append (a b : List Event) : logBytes (a ++ b) = logBytes a ++ logBytes b := by
  induction a with
  | nil => rfl
  | cons e es ih => simp [logBytes, ih]

theorem misplaced_congr (evs : List Event) :
    ∀ s s2 : List Char, atLineStart s = atLineStart s2 →
      misplacedStamps s evs = misplacedStamps s2 evs := by
  induction evs with
  | nil => intro _ _ _; rfl
  | cons e es ih =>
    intro s s2 h
    simp only [misplacedStamps, h]
    rw [ih (s ++ e.logged) (s2 ++ e.logged) (by rw [atLineStart_append, atLineStart_append, h])]

theorem misplaced_append (a b : List Event) :
    ∀ s : List Char, misplacedStamps s (a ++ b)
      = misplacedStamps s a ++ misplacedStamps (s ++ logBytes a) b := by
  induction a with
  | nil => intro s; simp [misplacedStamps, logBytes]
  | cons e es ih =>
    intro s
    show (if e.fromSite Site.tstamp && !atLineStart s then [e] else [])
        ++ misplacedStamps (s ++ e.logged) (es ++ b)
      = ((if e.fromSite Site.tstamp && !atLineStart s then [e] else [])
        ++ misplacedStamps (s ++ e.logged) es)
        ++ misplacedStamps (s ++ (e.logged ++ logBytes es)) b
    rw [ih, List.append_assoc, List.append_assoc]

theorem run_flag_false (p : List Char) :
    flagAfter false (p.take (runLen p)) = (strchr p NL).isSome := by
  induction p with
  | nil => simp [runLen_of_deref_nul [] rfl, strchr_of_deref_nul [] rfl, flagAfter]
  | cons c cs ih =>
    by_cases hc : c = NUL
    · have h0 : runLen (c :: cs) = 0 := runLen_of_deref_nul _ hc
      have h1 : strchr (c :: cs) NL = none := strchr_of_deref_nul _ hc
      simp [h0, h1, flagAfter]
    · rw [runLen_cons c cs hc, strchr_isSome_cons c cs hc]
      by_cases hn : c = NL
      · simp [hn, flagAfter]
      · have hb : (c == NL) = false := by simpa using hn
        simp only [if_neg hn, List.take_succ_cons, flagAfter, hb, ih]

theorem run_flag (f : Bool) (p : List Char) (h : deref p ≠ NUL) :
    flagAfter f (p.take (runLen p)) = (strchr p NL).isSome := by
  obtain ⟨c, cs, rfl, hc⟩ := exists_cons_of_deref p h
  rw [runLen_cons c cs hc, strchr_isSome_cons c cs hc]
  by_cases hn : c = NL
  · simp [hn, flagAfter]
  · have hb : (c == NL) = false := by simpa using hn
    simp only [if_neg hn, List.take_succ_cons, flagAfter, hb, run_flag_false cs]

theorem tsEvents_misplaced (env : Env) (st : State) (h : Nat) (s : List Char) :
    misplacedStamps s (tsEvents env st h)
      = if st.tstamp_format.isEmpty || atLineStart s then []
        else [Event.write (some h) Site.tstamp (tstampToken env st.tstamp_format st.clock)
                (tstampToken env st.tstamp_format st.clock).length] := by
  unfold tsEvents
  cases hf : st.tstamp_format.isEmpty
  · cases hs : atLineStart s <;> simp [misplacedStamps, Event.fromSite, hs]
  · simp [misplacedStamps]

theorem tsEvents_logBytes (env : Env) (st : State) (h : Nat) :
    logBytes (tsEvents env st h) = tsPrefixAt env st.tstamp_format st.clock := by
  unfold tsEvents tsPrefixAt
  split <;> simp [logBytes, Event.logged, written]

theorem iterEvents_misplaced (env : Env) (st : State) (h : Nat) (ptr s : List Char)
    (hflag : st.print_timestamp = true → atLineStart s = true) :
    misplacedStamps s (iterEvents env st h ptr) = [] := by
  unfold iterEvents
  rw [misplaced_append]
  cases hpt : st.print_timestamp
  · simp [misplacedStamps, Event.fromSite]
  · simp [tsEvents_misplaced, hflag hpt, misplacedStamps, Event.fromSite]

theorem iterEvents_logBytes (env : Env) (st : State) (h : Nat) (ptr : List Char) :
    logBytes (iterEvents env st h ptr)
      = (if st.print_timestamp then tsPrefixAt env st.tstamp_format st.clock else [])
          ++ ptr.take (runLen ptr) := by
  unfold iterEvents
  rw [logBytes_append]
  cases hpt : st.print_timestamp
  · simp [logBytes, Event.logged, written_take]
  · simp [tsEvents_logBytes, logBytes, Event.logged, written_take]

theorem flagAfter_mono (f b : Bool) (c : List Char) (h : f = true → b = true)
    (hc : flagAfter f c = true) : flagAfter b c = true := by
  cases c with
  | nil => exact h hc
  | cons x xs => exact hc

/-- The loop of `logfile_write` when every write succeeds: none of its time
stamps is written in the middle of a line, provided a set flag means that the
stream is at a line boundary; the stream ends where the string ends. -/
theorem loop_stamps (env : Env) (hw : WritesSucceed env) (h : Nat) :
    ∀ (fuel : Nat) (ptr : List Char) (st : State) (s : List Char),
      st.logfd = some h → h ∈ st.openFds → strlen ptr < fuel →
      (st.print_timestamp = true → atLineStart s = true) →
      ∃ st' evs, logfile_write_loop env fuel ptr st = some st'
        ∧ SameSink st st'
        ∧ st'.trace = st.trace ++ evs
        ∧ misplacedStamps s evs = []
        ∧ atLineStart (s ++ logBytes evs) = flagAfter (atLineStart s) (cstr ptr)
        ∧ st'.print_timestamp = flagAfter st.print_timestamp (cstr ptr) := by
  intro fuel
  induction fuel with
  | zero => intro ptr st s _ _ hlt; exact absurd hlt (Nat.not_lt_zero _)
  | succ fuel ih =>
    intro ptr st s hfd hopen hlt hflag
    by_cases hne : deref ptr = NUL
    · have hc : cstr ptr = [] := cstr_of_deref_nul ptr hne
      refine ⟨st, [], ?_, ⟨rfl, rfl, rfl, rfl, rfl, rfl, rfl⟩, by simp, rfl, ?_, ?_⟩
      · rw [logfile_write_loop, if_pos hne]
      · rw [hc]; simp [logBytes, flagAfter]
      · rw [hc]; rfl
    · rw [loop_step_ok env hw fuel ptr st h hfd hopen hne]
      have hdrop := strlen_drop_run ptr hne
      have hat : atLineStart (s ++ logBytes (iterEvents env st h ptr))
          = (strchr ptr NL).isSome := by
        rw [iterEvents_logBytes, ← List.append_assoc, atLineStart_append, run_flag _ ptr hne]
      obtain ⟨st', evs, hrun, hsame, htr, hmis, hend, hfl⟩ :=
        ih (ptr.drop (runLen ptr))
          { st.advance (iterEvents env st h ptr) with
            print_timestamp := (strchr ptr NL).isSome }
          (s ++ logBytes (iterEvents env st h ptr)) hfd hopen (by omega)
          (by intro hp; rw [hat]; exact hp)
      obtain ⟨s1, s2, s3, s4, s5, s6, s7⟩ := hsame
      refine ⟨st', iterEvents env st h ptr ++ evs, hrun, ⟨s1, s2, s3, s4, s5, s6, s7⟩, ?_,
        ?_, ?_, ?_⟩
      · rw [htr]; simp
      · rw [misplaced_append, iterEvents_misplaced env st h ptr s hflag, hmis]; rfl
      · rw [logBytes_append, ← List.append_assoc, hend, hat]
        exact ((stamp_run [] (atLineStart s) ptr hne).2).symm
      · rw [hfl]; exact ((stamp_run [] st.print_timestamp ptr hne).2).symm

theorem write_stamps (env : Env) (hw : WritesSucceed env) (st : State) (buf : List Char)
    (hready : SinkReady st) :
    ∃ st' evs, logfile_write env st buf = some st'
      ∧ st'.trace = st.trace ++ evs
      ∧ SinkReady st'
      ∧ misplacedStamps (logBytes st.trace) evs = []
      ∧ atLineStart (logBytes st.trace ++ logBytes evs)
          = flagAfter (atLineStart (logBytes st.trace)) (cstr buf) := by
  obtain ⟨h, name, hfd, hfds, hname, hfmt, hflag⟩ := hready
  have hopen : h ∈ st.openFds := by rw [hfds]; simp
  obtain ⟨st', evs, hrun, hsame, htr, hmis, hend, hfl⟩ :=
    loop_stamps env hw h (strlen buf + 1) buf st (logBytes st.trace) hfd hopen
      (Nat.lt_succ_self _) hflag
  obtain ⟨s1, s2, s3, s4, s5, s6, s7⟩ := hsame
  refine ⟨st', evs, ?_, htr, ⟨h, name, s2.trans hfd, s6.trans hfds, s1.trans hname, ?_, ?_⟩,
    hmis, hend⟩
  · unfold logfile_write
    rw [hfd]
    exact hrun
  · rw [s3]; exact hfmt
  · intro hp
    rw [htr, logBytes_append, hend]
    rw [hfl] at hp
    exact flagAfter_mono _ _ _ hflag hp

theorem marker_ends_line (x : List Char) (b : Bool) :
    flagAfter b (x ++ ". Reopening logfile\n".toList) = true
      ∧ flagAfter b (x ++ ". Logfile reopened\n".toList) = true := by
  rw [flagAfter_append, flagAfter_append]
  cases flagAfter b x <;> exact ⟨by decide, by decide⟩

/-- Time stamps of `logfile_reopen` when every call succeeds: the one in front
of the "Reopening logfile" marker follows whatever the stream holds, so it is
in the middle of a line exactly when the reopen is called there; the one in
front of the "Logfile reopened" marker starts a line. The stream ends at a
line boundary afterwards. -/
theorem reopen_stamps (env : Env) (hw : WritesSucceed env)
    (hopenOk : ∀ t, env.openOk t = true) (st : State) (reason : List Char)
    (hready : SinkReady st) :
    ∃ evs, (logfile_reopen env st reason).trace = st.trace ++ evs
      ∧ SinkReady (logfile_reopen env st reason)
      ∧ misplacedStamps (logBytes st.trace) evs
          = (if atLineStart (logBytes st.trace) then []
             else [Event.write st.logfd Site.tstamp (tstampToken env st.tstamp_format st.clock)
                    (tstampToken env st.tstamp_format st.clock).length])
      ∧ atLineStart (logBytes st.trace ++ logBytes evs) = true := by
  obtain ⟨h, name, hfd, hfds, hname, hfmt, hflag⟩ := hready
  obtain ⟨mid, hmfmt, hre, hmtr, hmfd, hmfds, hmflag⟩ :=
    reopen_ok env hw hopenOk st h name reason hfd hfds hname
  obtain ⟨_, _, _, _, _, _, _, _, _, _, hsfmt, hsname, _, _⟩ := reopen_shape env st reason
  have hend1 := fun b => (marker_ends_line (cstr reason) b).1
  have hend2 := fun b => (marker_ends_line (cstr reason) b).2
  have hne : st.tstamp_format.isEmpty = false := by
    cases hf : st.tstamp_format with
    | nil => exact absurd hf hfmt
    | cons _ _ => rfl
  generalize cstr reason ++ ". Reopening logfile\n".toList = m1 at hend1 hmtr
  generalize cstr reason ++ ". Logfile reopened\n".toList = m2 at hend2 hre
  have hL : logBytes [Event.write (some h) Site.marker m1 m1.length, Event.close h,
      Event.openFile (some name) (some st.nextFd)] = m1 := by
    simp [logBytes, Event.logged, written_full]
  have hL2 : logBytes [Event.write (some st.nextFd) Site.marker m2 m2.length] = m2 := by
    simp [logBytes, Event.logged, written_full]
  have hat2 : atLineStart (logBytes st.trace ++ logBytes (tsEvents env st h
      ++ [Event.write (some h) Site.marker m1 m1.length, Event.close h,
          Event.openFile (some name) (some st.nextFd)])) = true := by
    rw [logBytes_append, hL, ← List.append_assoc, atLineStart_append, hend1]
  refine ⟨(tsEvents env st h
      ++ [Event.write (some h) Site.marker m1 m1.length, Event.close h,
          Event.openFile (some name) (some st.nextFd)])
      ++ tsEvents env mid st.nextFd
      ++ [Event.write (some st.nextFd) Site.marker m2 m2.length], ?_, ?_, ?_, ?_⟩
  · rw [hre, advance_trace, advance_trace, hmtr]
    simp [List.append_assoc]
  · refine ⟨st.nextFd, name, ?_, ?_, hsname.trans hname, by rw [hsfmt]; exact hfmt, ?_⟩
    · rw [hre]; exact hmfd
    · rw [hre]; exact hmfds
    · intro _
      rw [hre, advance_trace, advance_trace, hmtr, logBytes_append, logBytes_append, hL2,
        ← List.append_assoc, atLineStart_append, hend2]
  · rw [misplaced_append, misplaced_append, misplaced_append, tsEvents_misplaced,
      tsEvents_misplaced, hat2, hne, hfd]
    cases atLineStart (logBytes st.trace) <;> simp [misplacedStamps, Event.fromSite]
  · rw [logBytes_append, hL2, ← List.append_assoc, atLineStart_append, hend2]

theorem run_calls_stamps (env : Env) (hw : WritesSucceed env)
    (hopenOk : ∀ t, env.openOk t = true) :
    ∀ (calls : List SinkCall) (st : State), SinkReady st →
      ∃ st' evs, run_calls env calls st = some st'
        ∧ st'.trace = st.trace ++ evs
        ∧ SinkReady st'
        ∧ (misplacedStamps (logBytes st.trace) evs).length
            = midLineReopens (atLineStart (logBytes st.trace)) calls := by
  intro calls
  induction calls with
  | nil => intro st hready; exact ⟨st, [], rfl, by simp, hready, rfl⟩
  | cons c cs ih =>
    intro st hready
    cases c with
    | write buf =>
      obtain ⟨s1, e1, hrun1, htr1, hready1, hmis1, hend1⟩ := write_stamps env hw st buf hready
      obtain ⟨s2, e2, hrun2, htr2, hready2, hlen2⟩ := ih s1 hready1
      refine ⟨s2, e1 ++ e2, ?_, by rw [htr2, htr1, List.append_assoc], hready2, ?_⟩
      · simp only [run_calls, hrun1, hrun2]
      · rw [misplaced_append, hmis1, List.nil_append]
        rw [htr1, logBytes_append] at hlen2
        rw [hlen2, hend1]
        rfl
    | reopen reason =>
      obtain ⟨e1, htr1, hready1, hmis1, hend1⟩ := reopen_stamps env hw hopenOk st reason hready
      obtain ⟨s2, e2, hrun2, htr2, hready2, hlen2⟩ := ih (logfile_reopen env st reason) hready1
      refine ⟨s2, e1 ++ e2, ?_, by rw [htr2, htr1, List.append_assoc], hready2, ?_⟩
      · simp only [run_calls, hrun2]
      · rw [misplaced_append, hmis1, List.length_append]
        rw [htr1, logBytes_append] at hlen2
        rw [hlen2, hend1]
        cases atLineStart (logBytes st.trace) <;> simp [midLineReopens]

theorem openState_ready : SinkReady openState :=
  ⟨3, "/var/log/remotetrx", rfl, rfl, rfl, by decide, fun _ => rfl⟩

/-- C11 (counterexample): from the initial state with the log open on handle 3
and every call succeeding, `logfile_write("abc")` followed by
`logfile_reopen("SIGHUP received")` writes the stream
`"T: abcT: SIGHUP received. Reopening logfile\n..."`: the time stamp of the first
marker line begins right behind `abc`, neither at the start of the stream nor
behind a line terminator. -/
theorem reopen_stamp_in_mid_line :
    WritesSucceed (okEnv "T".toList) ∧ openState.tstamp_format ≠ []
      ∧ openState.print_timestamp = true ∧ openState.trace = []
      ∧ (run_calls (okEnv "T".toList)
          [SinkCall.write "abc".toList, SinkCall.reopen "SIGHUP received".toList]
          openState).map (fun s => logBytes s.trace)
        = some ("T: abcT: SIGHUP received. Reopening logfile\n"
            ++ "T: SIGHUP received. Logfile reopened\n").toList
      ∧ (run_calls (okEnv "T".toList)
          [SinkCall.write "abc".toList, SinkCall.reopen "SIGHUP received".toList]
          openState).map (fun s => misplacedStamps [] s.trace)
        = some [Event.write (some 3) Site.tstamp ['T'] 1] :=
  ⟨okEnv_writes _, by decide, rfl, rfl, by decide, by decide⟩

/-- C11 (amended): start from a state in which the log is open, the format is
not empty and a set new-line flag means that the stream is at a line boundary
(the initial state is one), with every write and every `open` succeeding. Every
sequence of `logfile_write` and `logfile_reopen` calls returns in such a state
again, and the time stamp tokens that do not begin at a logical line boundary
are as many as the `logfile_reopen` calls made in the middle of a line. Call by
call: no time stamp of a `logfile_write` is off a line boundary; of the two
time stamps of a `logfile_reopen` only the first, in front of the "Reopening
logfile" marker, can be, and it is exactly when the stream is in the middle of
a line at the call. -/
theorem stamps_off_boundary_only_by_midline_reopen (env : Env) (hw : WritesSucceed env)
    (hopenOk : ∀ t, env.openOk t = true) (st : State) (hready : SinkReady st)
    (calls : List SinkCall) (buf reason : List Char) :
    (∃ st' evs, run_calls env calls st = some st' ∧ st'.trace = st.trace ++ evs
        ∧ SinkReady st'
        ∧ (misplacedStamps (logBytes st.trace) evs).length
            = midLineReopens (atLineStart (logBytes st.trace)) calls)
      ∧ (∃ st' evs, logfile_write env st buf = some st' ∧ st'.trace = st.trace ++ evs
        ∧ SinkReady st'
        ∧ misplacedStamps (logBytes st.trace) evs = [])
      ∧ (∃ evs, (logfile_reopen env st reason).trace = st.trace ++ evs
        ∧ SinkReady (logfile_reopen env st reason)
        ∧ misplacedStamps (logBytes st.trace) evs
            = (if atLineStart (logBytes st.trace) then []
               else [Event.write st.logfd Site.tstamp
                      (tstampToken env st.tstamp_format st.clock)
                      (tstampToken env st.tstamp_format st.clock).length])) := by
  refine ⟨run_calls_stamps env hw hopenOk calls st hready, ?_, ?_⟩
  · obtain ⟨st', evs, hrun, htr, hr, hmis, -⟩ := write_stamps env hw st buf hready
    exact ⟨st', evs, hrun, htr, hr, hmis⟩
  · obtain ⟨evs, htr, hr, hmis, -⟩ := reopen_stamps env hw hopenOk st reason hready
    exact ⟨evs, htr, hr, hmis⟩

/-- C11 (witness of the amended statement): the calls `"abc\n"`, reopen, `"def"`
from the initial state with the log open on handle 3: the reopen comes at a
line boundary and no time stamp is off one. -/
theorem stamps_off_boundary_only_by_midline_reopen_witness :
    WritesSucceed (okEnv "T".toList) ∧ SinkReady openState
      ∧ (∃ st' evs, run_calls (okEnv "T".toList)
            [SinkCall.write "abc\n".toList, SinkCall.reopen "SIGHUP received".toList,
             SinkCall.write "def".toList] openState = some st'
          ∧ st'.trace = openState.trace ++ evs
          ∧ SinkReady st'
          ∧ misplacedStamps (logBytes openState.trace) evs = [])
      ∧ (∃ st' evs, logfile_write (okEnv "T".toList) openState "def".toList = some st'
          ∧ st'.trace = openState.trace ++ evs
          ∧ SinkReady st'
          ∧ misplacedStamps (logBytes openState.trace) evs = []) := by
  obtain ⟨⟨st', evs, hrun, htr, hr, hlen⟩, hwrite, -⟩ :=
    stamps_off_boundary_only_by_midline_reopen (okEnv "T".toList) (okEnv_writes _)
      (fun _ => rfl) openState openState_ready
      [SinkCall.write "abc\n".toList, SinkCall.reopen "SIGHUP received".toList,
       SinkCall.write "def".toList] "def".toList "SIGHUP received".toList
  have h0 : midLineReopens (atLineStart (logBytes openState.trace))
      [SinkCall.write "abc\n".toList, SinkCall.reopen "SIGHUP received".toList,
       SinkCall.write "def".toList] = 0 := by decide
  rw [h0] at hlen
  exact ⟨okEnv_writes _, openState_ready, ⟨st', evs, hrun, htr, hr,
    List.length_eq_zero.mp hlen⟩, hwrite⟩

end RemoteTrx
